import Mathlib

/-!
Verification of the frame-pump and display-synchronization engine of
`utils/cam.py` (pyv4l2).  The event-driven core (`readvid`,
`handle_pageflip`, `readdrm`, `readkey`, `setup`, `init_kms`) is embedded
shallowly: buffers are natural-number indices into a per-stream pool,
device queues are FIFO lists, and every externally visible effect
(requeueing a buffer, issuing an atomic commit, printing the backpressure
warning, stream-off, process exit) is recorded as an event in a trace.
Wall-clock diagnostics (fps printing, timestamps) have no effect on buffer
state and are omitted.
-/

namespace Cam

/-- Selector for the `--tx` option: `ctx.tx` is `['all']` or a list of
stream ids (cam.py line 69-74, 373). -/
inductive TxSel where
  | all : TxSel
  | ids : List Nat → TxSel
deriving DecidableEq, Repr

/-- Per-stream state, mirroring the `stream` dict of cam.py.  Buffers are
identified by their index in the stream's `fbs` pool.  `capQueue` is the
FIFO of buffers currently queued to the capture device (`cap.queue` /
`cap.dequeue`), `fbQueue` is `kms_fb_queue` (a deque: append right, pop
left), `kms_fb` the on-screen buffer and `kms_old_fb` the retiring one
(the latter three are only meaningful when `display` is true, as in the
source where the keys only exist for displayed streams). -/
structure Stream where
  num_bufs : Nat
  display : Bool
  capQueue : List Nat
  fbQueue : List Nat
  kms_fb : Nat
  kms_old_fb : Option Nat
  total_num_frames : Nat
deriving DecidableEq, Repr

/-- The mutable context of cam.py (the fields the event loop reads). -/
structure Ctx where
  streams : List Stream
  kms_committed : Bool
  save : Bool
  tx : Option TxSel
deriving DecidableEq, Repr

/-- Observable events of one dispatch. `give i fb` is `cap.queue` of buffer
`fb` on stream `i`; `flipCommit us` is `req.commit(allow_modeset=False)`
with `us` the list of (stream index, buffer) plane updates added via
`req.add`; `warn i d` is the `WARNING fb_queue d` print; `flipComplete` is
the processing of a DRM FLIP_COMPLETE event in `readdrm`; `procExit c` is
`exit(c)`. -/
inductive Ev where
  | modeset : Ev
  | streamOn : Nat → Ev
  | streamOff : Nat → Ev
  | give : Nat → Nat → Ev
  | warn : Nat → Nat → Ev
  | save : Nat → Nat → Ev
  | sink : Nat → Nat → Ev
  | flipCommit : List (Nat × Nat) → Ev
  | flipComplete : Ev
  | procExit : Nat → Ev
deriving DecidableEq, Repr

/-- Body of the per-stream part of `handle_pageflip` (cam.py 403-435):
skip non-displayed streams; requeue the retiring buffer `kms_old_fb` to
the capture device and clear the field; then, if `kms_fb_queue` is
non-empty, retire the current `kms_fb` and pop the oldest queue entry as
the new on-screen buffer, contributing a plane update.  Returns the new
stream state, the buffers given back to the capture device, and the plane
update (the buffer passed to `req.add`), if any. -/
def pageflipStream (s : Stream) : Stream × List Nat × Option Nat :=
  if !s.display then (s, [], none) else
    let cap' := s.capQueue ++ s.kms_old_fb.toList
    let gives := s.kms_old_fb.toList
    match s.fbQueue with
    | [] => ({ s with capQueue := cap', kms_old_fb := none }, gives, none)
    | fb :: rest =>
        ({ s with capQueue := cap', kms_old_fb := some s.kms_fb,
                  kms_fb := fb, fbQueue := rest }, gives, some fb)

/-- The `for stream in streams` loop of `handle_pageflip`, carrying the
index of the current stream.  Returns the updated stream list, the trace
of `give` events (in loop order) and the accumulated plane updates. -/
def pageflipLoop : Nat → List Stream → List Stream × List Ev × List (Nat × Nat)
  | _, [] => ([], [], [])
  | i, s :: rest =>
    let r := pageflipStream s
    let t := pageflipLoop (i + 1) rest
    (r.1 :: t.1,
     r.2.1.map (Ev.give i) ++ t.2.1,
     (r.2.2.map (fun fb => (i, fb))).toList ++ t.2.2)

/-- `handle_pageflip` (cam.py 394-439): clear the in-flight flag, run the
per-stream loop, and if any plane update was collected issue a single
atomic flip commit batching all of them and set the in-flight flag. -/
def handle_pageflip (ctx : Ctx) : Ctx × List Ev :=
  let r := pageflipLoop 0 ctx.streams
  if r.2.2.isEmpty then
    ({ ctx with streams := r.1, kms_committed := false }, r.2.1)
  else
    ({ ctx with streams := r.1, kms_committed := true },
     r.2.1 ++ [Ev.flipCommit r.2.2])

/-- Whether the `--tx` selector matches stream `i`
(cam.py 373: `ctx.tx == ['all'] or str(stream['id']) in ctx.tx`). -/
def txMatch (tx : Option TxSel) (i : Nat) : Bool :=
  match tx with
  | none => false
  | some TxSel.all => true
  | some (TxSel.ids l) => i ∈ l

/-- Display path of `readvid` (cam.py 361-362): the dequeued buffer is
appended to `kms_fb_queue` and removed from the device queue. -/
def appendStream (s : Stream) (vbuf : Nat) (rest : List Nat) : Stream :=
  { s with total_num_frames := s.total_num_frames + 1,
           capQueue := rest, fbQueue := s.fbQueue ++ [vbuf] }

/-- Non-display path of `readvid` (cam.py 376): the dequeued buffer is
immediately requeued to the capture device. -/
def rotateStream (s : Stream) (vbuf : Nat) (rest : List Nat) : Stream :=
  { s with total_num_frames := s.total_num_frames + 1,
           capQueue := rest ++ [vbuf] }

/-- Backpressure warning of `readvid` (cam.py 364-365): printed when the
depth of `kms_fb_queue`, after appending, is at least `num_bufs - 1`. -/
def warnEvs (i : Nat) (s' : Stream) : List Ev :=
  if s'.num_bufs - 1 ≤ s'.fbQueue.length then [Ev.warn i s'.fbQueue.length] else []

/-- Save-to-file side effect of `readvid` (cam.py 358-359). -/
def saveEvs (ctx : Ctx) (i vbuf : Nat) : List Ev :=
  if ctx.save then [Ev.save i vbuf] else []

/-- Network-sink side effect of `readvid`'s non-display path
(cam.py 373-374). -/
def txEvs (ctx : Ctx) (i vbuf : Nat) : List Ev :=
  if txMatch ctx.tx i then [Ev.sink i vbuf] else []

/-- `readvid` (cam.py 327-376), dispatched when stream `i`'s capture device
is ready: dequeue the completed buffer (the head of the device FIFO —
`none` if the stream does not exist or its device queue is empty, in which
case the dispatch cannot happen); optionally save it; then either (display
path) append it to `kms_fb_queue`, print the backpressure warning when the
queue depth reaches `num_bufs - 1`, and call `handle_pageflip` if no flip
commit is in flight, or (non-display path) optionally transmit it and
requeue it to the capture device at once. -/
def readvid (ctx : Ctx) (i : Nat) : Option (Ctx × List Ev) :=
  match ctx.streams.get? i with
  | none => none
  | some s =>
    match s.capQueue with
    | [] => none
    | vbuf :: rest =>
      if s.display then
        let s' := appendStream s vbuf rest
        let ctx1 := { ctx with streams := ctx.streams.set i s' }
        if ctx.kms_committed then
          some (ctx1, saveEvs ctx i vbuf ++ warnEvs i s')
        else
          let r := handle_pageflip ctx1
          some (r.1, saveEvs ctx i vbuf ++ warnEvs i s' ++ r.2)
      else
        some ({ ctx with streams := ctx.streams.set i (rotateStream s vbuf rest) },
              saveEvs ctx i vbuf ++ txEvs ctx i vbuf ++ [Ev.give i vbuf])

/-- `readdrm` (cam.py 442-446): read the pending DRM event and run
`handle_pageflip` on FLIP_COMPLETE.  Since at most one flip commit is ever
outstanding, at most one FLIP_COMPLETE can be pending, modelled as a
single completion. -/
def readdrm (ctx : Ctx) : Ctx × List Ev :=
  let r := handle_pageflip ctx
  (r.1, Ev.flipComplete :: r.2)

/-- `readkey` (cam.py 379-391): on control input, issue `stream_off` on
every stream in reverse registration order, then terminate the process
with `exit(0)` from inside the callback.  No context state is mutated. -/
def readkey (ctx : Ctx) : List Ev :=
  (ctx.streams.enum.reverse.map (fun p => Ev.streamOff p.1)) ++ [Ev.procExit 0]

/-- Loop condition of the scheduler loop in `run` (cam.py 460:
`while True`).  There is no stop flag in `Context`; the loop condition
consults no state. -/
def run_loop_cond (_ : Ctx) : Bool := true

/-- Static configuration handed to `setup`: global flags and, per stream,
the config-file `display` request and `num_bufs`. -/
structure Cfg where
  use_display : Bool
  save : Bool
  tx : Option TxSel
  streams : List (Bool × Nat)
deriving DecidableEq, Repr

/-- Initial per-stream state built by `setup` (cam.py 242-290): for a
displayed stream buffer 0 is placed on screen (`kms_fb = fbs[0]`,
`first_buf = 1`) and buffers `1..num_bufs-1` are queued to the capture
device; for a non-displayed stream all of `0..num_bufs-1` are queued. -/
def initStream (display : Bool) (n : Nat) : Stream :=
  { num_bufs := n, display := display,
    capQueue := if display then List.range' 1 (n - 1) else List.range n,
    fbQueue := [], kms_fb := 0, kms_old_fb := none, total_num_frames := 0 }

/-- `setup` (cam.py 239-323): build the initial streams, issue the single
synchronous modeset commit when the display is in use (strictly before any
stream is started), stream-on every stream, and clear the in-flight flag.
A stream is displayed iff the display is globally enabled and the config
requests it (cam.py 157). -/
def setup (cfg : Cfg) : Ctx × List Ev :=
  let streams := cfg.streams.map (fun p => initStream (cfg.use_display && p.1) p.2)
  ({ streams := streams, kms_committed := false, save := cfg.save, tx := cfg.tx },
   (if cfg.use_display then [Ev.modeset] else []) ++
     (List.range streams.length).map Ev.streamOn)

/-- One dispatch of the event loop (`run`, cam.py 449-467): either a
capture-ready callback (`readvid`, possible only when the device holds a
completed buffer) or a display-completion callback (`readdrm`; the DRM
device delivers FLIP_COMPLETE only for a previously issued flip whose
completion has not yet been read, i.e. only while `kms_committed`). -/
inductive Step : Ctx → List Ev → Ctx → Prop
  | capReady (ctx : Ctx) (i : Nat) (p : Ctx × List Ev) :
      readvid ctx i = some p → Step ctx p.2 p.1
  | drmReady (ctx : Ctx) :
      ctx.kms_committed = true → Step ctx (readdrm ctx).2 (readdrm ctx).1

/-- States (with their accumulated event trace) reachable by the event
loop from the state `setup` leaves behind. -/
inductive Reach (cfg : Cfg) : Ctx → List Ev → Prop
  | init : Reach cfg (setup cfg).1 (setup cfg).2
  | step {ctx tr evs ctx'} : Reach cfg ctx tr → Step ctx evs ctx' →
      Reach cfg ctx' (tr ++ evs)

/-- All stream buffer counts are at least 1 (spec §6: `buffer_count:int≥1`;
`setup` indexes `fbs[0]` for displayed streams). -/
def CfgOk (cfg : Cfg) : Prop := ∀ p ∈ cfg.streams, 1 ≤ p.2

instance (cfg : Cfg) : Decidable (CfgOk cfg) := by
  unfold CfgOk; infer_instance

/-- Number of buffers of a stream owned by the capture queue, plus those
in the pending-commit queue, on screen, and retiring.  Buffers held by the
pump in transit are counted by neither side only during a dispatch, so
between dispatched callbacks this is the whole pool. -/
def bufTotal (s : Stream) : Nat :=
  if s.display then
    s.capQueue.length + s.fbQueue.length + 1 + s.kms_old_fb.toList.length
  else s.capQueue.length

/-- Buffer conservation for every stream of a context. -/
def Conserved (ctx : Ctx) : Prop := ∀ s ∈ ctx.streams, bufTotal s = s.num_bufs

instance (ctx : Ctx) : Decidable (Conserved ctx) := by
  unfold Conserved; infer_instance

/-- Geometry of one display plane, as computed by `init_kms`
(cam.py 196-216): source crop box in buffer coordinates and destination
box in screen coordinates. -/
structure Geom where
  srcW : Nat
  srcH : Nat
  srcX : Nat
  srcY : Nat
  dstW : Nat
  dstH : Nat
  dstX : Nat
  dstY : Nat
deriving DecidableEq, Repr

/-- Per-stream input to the geometry assignment of `init_kms`: the
`kms-buf-w`/`kms-buf-h` buffer dimensions and the resolved display flag
(`use_display and stream.get('display', True)`, cam.py 152/157). -/
structure GCfg where
  bufW : Nat
  bufH : Nat
  display : Bool
deriving DecidableEq, Repr

/-- Plane geometry of one displayed stream (cam.py 196-216): the grid cell
is the full mode box width for a single plane and half otherwise, the full
height for up to two planes and half otherwise; the source region is the
buffer clipped to the cell and centred; the destination region has the
source's size and sits at the left or right (top or bottom) edge of the
mode box according to the parity (halving) of the display index. -/
def planeGeom (hdisplay vdisplay numPlanes bufW bufH dispIdx : Nat) : Geom :=
  let maxW := hdisplay / (if numPlanes = 1 then 1 else 2)
  let maxH := vdisplay / (if numPlanes ≤ 2 then 1 else 2)
  let srcW := min bufW maxW
  let srcH := min bufH maxH
  { srcW := srcW, srcH := srcH,
    srcX := (bufW - srcW) / 2, srcY := (bufH - srcH) / 2,
    dstW := srcW, dstH := srcH,
    dstX := if dispIdx % 2 = 0 then 0 else hdisplay - srcW,
    dstY := if dispIdx / 2 = 0 then 0 else vdisplay - srcH }

/-- The `for i, stream in enumerate(streams)` loop of `init_kms`
(cam.py 156-221) restricted to its geometry effect: displayed streams get
a plane geometry and advance `display_idx`; others get none. -/
def assignGeoms (hd vd np : Nat) : List GCfg → Nat → List (Option Geom)
  | [], _ => []
  | c :: rest, dispIdx =>
    if c.display then
      some (planeGeom hd vd np c.bufW c.bufH dispIdx)
        :: assignGeoms hd vd np rest (dispIdx + 1)
    else none :: assignGeoms hd vd np rest dispIdx

/-- Geometry assignment of `init_kms`: `num_planes` is the number of
displayed streams (cam.py 152), `display_idx` starts at 0 (cam.py 154). -/
def init_kms_geoms (hd vd : Nat) (cfgs : List GCfg) : List (Option Geom) :=
  assignGeoms hd vd (cfgs.countP (fun c => c.display)) cfgs 0

/-- Scanner for the give/commit history of one buffer `fb` of stream `i`:
walks a trace carrying an armed flag meaning `fb` has been given back to
the capture queue and not shown on screen since.  Giving while armed
yields `none` (a double give without an intervening display); a flip
commit whose updates contain `(i, fb)` disarms. -/
def scanG (i fb : Nat) : List Ev → Bool → Option Bool
  | [], a => some a
  | Ev.give j g :: rest, a =>
      if j = i ∧ g = fb then (if a then none else scanG i fb rest true)
      else scanG i fb rest a
  | Ev.flipCommit us :: rest, a =>
      scanG i fb rest (if (i, fb) ∈ us then false else a)
  | _ :: rest, a => scanG i fb rest a

/-- Concrete configuration used to exercise the conservation theorem: one
displayed stream with three buffers and one non-display stream with two. -/
def cfgW1 : Cfg := { use_display := true, save := false, tx := none,
                     streams := [(true, 3), (false, 2)] }

/-- Initial context of `cfgW1`. -/
def ctxW1 : Ctx := (setup cfgW1).1

/-- Result of the first capture-ready dispatch on `ctxW1`. -/
def pW1 : Ctx × List Ev := (readvid ctxW1 0).getD (ctxW1, [])

/-- Concrete context exercising the double-flip path: a flip commit is
outstanding (`kms_committed`) and the displayed stream has a pending
buffer. -/
def ctxW4 : Ctx :=
  { streams := [{ num_bufs := 3, display := true, capQueue := [2],
                  fbQueue := [1], kms_fb := 0, kms_old_fb := none,
                  total_num_frames := 1 }],
    kms_committed := true, save := false, tx := none }

/-- Concrete two-stream context for the shutdown callback. -/
def ctxW6 : Ctx :=
  { streams := [initStream false 2, initStream false 3],
    kms_committed := false, save := false, tx := none }

/-- Concrete display configuration for the modeset-ordering theorem. -/
def cfgW7 : Cfg := { use_display := true, save := false, tx := none,
                     streams := [(true, 2)] }

/-- Concrete context with a non-display stream and the network sink
enabled, for the round-trip theorem. -/
def ctxW8 : Ctx :=
  { streams := [initStream false 3],
    kms_committed := false, save := false, tx := some TxSel.all }

/-- Concrete single-display-stream configuration for the in-flight-flag
theorem. -/
def cfgW2 : Cfg := { use_display := true, save := false, tx := none,
                     streams := [(true, 3)] }

/-- Initial context of `cfgW2`. -/
def ctxW2 : Ctx := (setup cfgW2).1

/-- Result of the first capture-ready dispatch on `ctxW2`; it issues the
first flip commit, so the in-flight flag is set afterwards. -/
def pW2 : Ctx × List Ev := (readvid ctxW2 0).getD (ctxW2, [])

/-- Trace after the first capture-ready dispatch on `cfgW2`. -/
def trW2 : List Ev := (setup cfgW2).2 ++ pW2.2

/-- The displayed stream of `pW2.1`: buffer 1 on screen, buffer 0
retiring, buffer 2 still with the capture device. -/
def sW2 : Stream :=
  { num_bufs := 3, display := true, capQueue := [2], fbQueue := [],
    kms_fb := 1, kms_old_fb := some 0, total_num_frames := 1 }

/-- Concrete context for the flip-complete theorem: a displayed stream
with a retiring buffer and a pending buffer, plus a non-display stream. -/
def ctxW3 : Ctx :=
  { streams := [{ num_bufs := 3, display := true, capQueue := [],
                  fbQueue := [2], kms_fb := 1, kms_old_fb := some 0,
                  total_num_frames := 2 },
                initStream false 2],
    kms_committed := true, save := false, tx := none }

/-- The displayed stream of `ctxW3`. -/
def sW3 : Stream :=
  { num_bufs := 3, display := true, capQueue := [], fbQueue := [2],
    kms_fb := 1, kms_old_fb := some 0, total_num_frames := 2 }

/-- Concrete single-display-stream configuration for the backpressure
theorem. -/
def cfgW5 : Cfg := { use_display := true, save := false, tx := none,
                     streams := [(true, 3)] }

/-- Initial context of `cfgW5`. -/
def ctxW5 : Ctx := (setup cfgW5).1

/-- Result of the first capture-ready dispatch on `ctxW5`. -/
def pW5 : Ctx × List Ev := (readvid ctxW5 0).getD (ctxW5, [])

/-- Concrete three-stream geometry configuration: two displayed streams
(of three), mode box 1920x1080. -/
def cfgsW9 : List GCfg :=
  [{ bufW := 640, bufH := 480, display := true },
   { bufW := 800, bufH := 600, display := false },
   { bufW := 1920, bufH := 1080, display := true }]

/-- Concrete two-buffer display configuration used to drive six event-loop
steps for the no-double-retirement theorem. -/
def cfgW10 : Cfg := { use_display := true, save := false, tx := none,
                      streams := [(true, 2)] }

/-- Step results of the six-step run on `cfgW10`: capture, completion,
capture, completion, capture, completion. -/
def pW10a : Ctx × List Ev := (readvid (setup cfgW10).1 0).getD ((setup cfgW10).1, [])

/-- Second step: first flip completion. -/
def dW10b : Ctx × List Ev := readdrm pW10a.1

/-- Third step: second capture. -/
def pW10c : Ctx × List Ev := (readvid dW10b.1 0).getD (dW10b.1, [])

/-- Fourth step: second completion. -/
def dW10d : Ctx × List Ev := readdrm pW10c.1

/-- Fifth step: third capture. -/
def pW10e : Ctx × List Ev := (readvid dW10d.1 0).getD (dW10d.1, [])

/-- Sixth step: third completion, which gives buffer 0 back a second
time. -/
def dW10f : Ctx × List Ev := readdrm pW10e.1

/-- The trace accumulated over the six steps. -/
def trW10 : List Ev :=
  (((((((setup cfgW10).2 ++ pW10a.2) ++ dW10b.2) ++ pW10c.2) ++ dW10d.2)
    ++ pW10e.2) ++ dW10f.2)

/-- The displayed stream after the six steps. -/
def sW10 : Stream :=
  { num_bufs := 2, display := true, capQueue := [0], fbQueue := [],
    kms_fb := 1, kms_old_fb := none, total_num_frames := 3 }

/-- The whole buffer pool of a displayed stream, in ownership order:
capture queue, pending-commit queue, on-screen, retiring. -/
def pool (s : Stream) : List Nat :=
  s.capQueue ++ s.fbQueue ++ s.kms_fb :: s.kms_old_fb.toList

/-- Pool nodup invariant: no buffer of a displayed stream is in two
ownership states at once. -/
def PoolNodup (ctx : Ctx) : Prop :=
  ∀ s ∈ ctx.streams, s.display = true → (pool s).Nodup

/-- Scanner invariant tying a reachable state to its trace: no double
give has happened, and a buffer that is on screen or retiring has every
one of its past gives followed by a commit that re-displayed it. -/
def ScanInv (ctx : Ctx) (tr : List Ev) : Prop :=
  ∀ i s, ctx.streams.get? i = some s → s.display = true →
    (∀ fb, scanG i fb tr false ≠ none) ∧
    (∀ fb, s.kms_old_fb = some fb → scanG i fb tr false = some false) ∧
    scanG i s.kms_fb tr false = some false


/-- Recognizer for flip-commit events. -/
def isFlip : Ev → Bool
  | Ev.flipCommit _ => true
  | _ => false

/-- Recognizer for flip-completion events. -/
def isComplete : Ev → Bool
  | Ev.flipComplete => true
  | _ => false

/-- Recognizer for modeset events. -/
def isModeset : Ev → Bool
  | Ev.modeset => true
  | _ => false

/-- Recognizer for backpressure warnings of stream `i`. -/
def isWarn (i : Nat) : Ev → Bool
  | Ev.warn j _ => j == i
  | _ => false

/-- Number of flip commits issued in a trace. -/
def countFlips (tr : List Ev) : Nat := tr.countP isFlip

/-- Number of flip completions processed in a trace. -/
def countCompletes (tr : List Ev) : Nat := tr.countP isComplete

lemma get?_set_self {α : Type} (l : List α) (i : Nat) (a : α)
    (h : i < l.length) : (l.set i a).get? i = some a := by
  rw [List.get?_eq_getElem?]
  simp [List.getElem?_set, h]

lemma get?_set_other {α : Type} (l : List α) (i j : Nat) (a : α)
    (hj : j ≠ i) : (l.set i a).get? j = l.get? j := by
  rw [List.get?_eq_getElem?, List.get?_eq_getElem?]
  simp [List.getElem?_set, Ne.symm hj]

lemma pageflipStream_num_bufs (s : Stream) :
    (pageflipStream s).1.num_bufs = s.num_bufs := by
  unfold pageflipStream
  cases hd : s.display <;> cases hq : s.fbQueue <;> simp [hd, hq]

lemma pageflipStream_display (s : Stream) :
    (pageflipStream s).1.display = s.display := by
  unfold pageflipStream
  cases hd : s.display <;> cases hq : s.fbQueue <;> simp [hd, hq]

lemma pageflipStream_nondisplay (s : Stream) (h : s.display = false) :
    pageflipStream s = (s, [], none) := by
  unfold pageflipStream
  simp [h]

lemma pageflipStream_capQueue (s : Stream) (h : s.display = true) :
    (pageflipStream s).1.capQueue = s.capQueue ++ s.kms_old_fb.toList := by
  unfold pageflipStream
  cases s.fbQueue <;> simp [h]

lemma pageflipStream_empty (s : Stream) (h : s.display = true)
    (hq : s.fbQueue = []) :
    (pageflipStream s).1.kms_fb = s.kms_fb ∧
    (pageflipStream s).1.kms_old_fb = none ∧
    (pageflipStream s).1.fbQueue = [] ∧
    (pageflipStream s).2.2 = none := by
  unfold pageflipStream
  simp [h, hq]

lemma pageflipStream_pop (s : Stream) (h : s.display = true)
    (fb : Nat) (rest : List Nat) (hq : s.fbQueue = fb :: rest) :
    (pageflipStream s).1.kms_fb = fb ∧
    (pageflipStream s).1.kms_old_fb = some s.kms_fb ∧
    (pageflipStream s).1.fbQueue = rest ∧
    (pageflipStream s).2.2 = some fb := by
  unfold pageflipStream
  simp [h, hq]

lemma pageflipStream_gives (s : Stream) :
    (pageflipStream s).2.1 = if s.display then s.kms_old_fb.toList else [] := by
  unfold pageflipStream
  cases hd : s.display <;> cases hq : s.fbQueue <;> simp [hd, hq]

lemma pageflipStream_update (s : Stream) :
    (pageflipStream s).2.2 = if s.display then s.fbQueue.head? else none := by
  unfold pageflipStream
  cases hd : s.display <;> cases hq : s.fbQueue <;> simp [hd, hq]

lemma pageflipStream_bufTotal (s : Stream) :
    bufTotal (pageflipStream s).1 = bufTotal s := by
  unfold pageflipStream bufTotal
  cases hd : s.display
  · simp [hd]
  · cases ho : s.kms_old_fb <;> cases hq : s.fbQueue <;>
      simp [hd, ho, hq] <;> omega

lemma pageflipStream_pool_perm (s : Stream) (h : s.display = true) :
    (pool (pageflipStream s).1).Perm (pool s) := by
  unfold pageflipStream pool
  cases ho : s.kms_old_fb <;> cases hq : s.fbQueue <;> simp [h, ho, hq]
  · refine List.Perm.append_left _ ?_
    exact (List.perm_append_comm).trans
      (((List.perm_append_comm).cons _).symm)
  · refine List.Perm.append_left _ ?_
    exact List.Perm.swap _ _ _
  · refine List.Perm.append_left _ ?_
    rename_i o fb tail
    have hL : (o :: (tail ++ [fb, s.kms_fb])).Perm (o :: fb :: s.kms_fb :: tail) :=
      (@List.perm_append_comm _ tail _).cons o
    have hR : (fb :: (tail ++ [s.kms_fb, o])).Perm (fb :: s.kms_fb :: o :: tail) :=
      (@List.perm_append_comm _ tail _).cons fb
    have hM : (o :: fb :: s.kms_fb :: tail).Perm (fb :: s.kms_fb :: o :: tail) :=
      (List.Perm.swap fb o _).trans ((List.Perm.swap s.kms_fb o _).cons fb)
    exact hL.trans (hM.trans hR.symm)

lemma pageflipLoop_fst (k : Nat) (l : List Stream) :
    (pageflipLoop k l).1 = l.map (fun s => (pageflipStream s).1) := by
  induction l generalizing k with
  | nil => rfl
  | cons s rest ih => simp [pageflipLoop, ih]

lemma handle_pageflip_streams (ctx : Ctx) :
    (handle_pageflip ctx).1.streams
      = ctx.streams.map (fun s => (pageflipStream s).1) := by
  by_cases h : (pageflipLoop 0 ctx.streams).2.2.isEmpty <;>
    simp [handle_pageflip, h, pageflipLoop_fst]

lemma handle_pageflip_save (ctx : Ctx) :
    (handle_pageflip ctx).1.save = ctx.save := by
  by_cases h : (pageflipLoop 0 ctx.streams).2.2.isEmpty <;>
    simp [handle_pageflip, h]

lemma handle_pageflip_tx (ctx : Ctx) :
    (handle_pageflip ctx).1.tx = ctx.tx := by
  by_cases h : (pageflipLoop 0 ctx.streams).2.2.isEmpty <;>
    simp [handle_pageflip, h]

lemma handle_pageflip_committed (ctx : Ctx) :
    (handle_pageflip ctx).1.kms_committed
      = !(pageflipLoop 0 ctx.streams).2.2.isEmpty := by
  by_cases h : (pageflipLoop 0 ctx.streams).2.2.isEmpty <;>
    simp [handle_pageflip, h]

lemma handle_pageflip_evs (ctx : Ctx) :
    (handle_pageflip ctx).2
      = (pageflipLoop 0 ctx.streams).2.1
        ++ (if (pageflipLoop 0 ctx.streams).2.2.isEmpty then []
            else [Ev.flipCommit (pageflipLoop 0 ctx.streams).2.2]) := by
  by_cases h : (pageflipLoop 0 ctx.streams).2.2.isEmpty <;>
    simp [handle_pageflip, h]

/-- Members of the give-trace of the pageflip loop. -/
lemma pageflipLoop_give_mem (l : List Stream) (k j fb : Nat) :
    Ev.give j fb ∈ (pageflipLoop k l).2.1
      ↔ ∃ s, l.get? (j - k) = some s ∧ k ≤ j ∧ s.display = true
          ∧ s.kms_old_fb = some fb := by
  induction l generalizing k with
  | nil => simp [pageflipLoop]
  | cons s rest ih =>
    have hhead : Ev.give j fb ∈ (pageflipStream s).2.1.map (Ev.give k)
        ↔ (j = k ∧ s.display = true ∧ s.kms_old_fb = some fb) := by
      rw [pageflipStream_gives]
      rcases hd : s.display <;> rcases ho : s.kms_old_fb <;>
        simp [hd, ho] <;> tauto
    simp only [pageflipLoop, List.mem_append, hhead, ih]
    constructor
    · rintro (⟨rfl, hd, ho⟩ | ⟨t, ht, hk, hd, ho⟩)
      · exact ⟨s, by simp, le_refl _, hd, ho⟩
      · refine ⟨t, ?_, by omega, hd, ho⟩
        have hidx : j - k = (j - (k + 1)) + 1 := by omega
        rw [hidx]
        simpa using ht
    · rintro ⟨t, ht, hk, hd, ho⟩
      by_cases hj : j = k
      · subst hj
        simp at ht
        subst ht
        exact Or.inl ⟨rfl, hd, ho⟩
      · refine Or.inr ⟨t, ?_, by omega, hd, ho⟩
        have hidx : j - k = (j - (k + 1)) + 1 := by omega
        rw [hidx] at ht
        simpa using ht

/-- Members of the collected plane updates of the pageflip loop. -/
lemma pageflipLoop_update_mem (l : List Stream) (k j fb : Nat) :
    (j, fb) ∈ (pageflipLoop k l).2.2
      ↔ ∃ s, l.get? (j - k) = some s ∧ k ≤ j ∧ s.display = true
          ∧ s.fbQueue.head? = some fb := by
  induction l generalizing k with
  | nil => simp [pageflipLoop]
  | cons s rest ih =>
    have hhead : (j, fb) ∈ ((pageflipStream s).2.2.map (fun b => (k, b))).toList
        ↔ (j = k ∧ s.display = true ∧ s.fbQueue.head? = some fb) := by
      rw [pageflipStream_update]
      rcases hd : s.display <;> rcases hq : s.fbQueue <;>
        simp [hd, hq] <;> tauto
    simp only [pageflipLoop, List.mem_append, hhead, ih]
    constructor
    · rintro (⟨rfl, hd, hq⟩ | ⟨t, ht, hk, hd, hq⟩)
      · exact ⟨s, by simp, le_refl _, hd, hq⟩
      · refine ⟨t, ?_, by omega, hd, hq⟩
        have hidx : j - k = (j - (k + 1)) + 1 := by omega
        rw [hidx]
        simpa using ht
    · rintro ⟨t, ht, hk, hd, hq⟩
      by_cases hj : j = k
      · subst hj
        simp at ht
        subst ht
        exact Or.inl ⟨rfl, hd, hq⟩
      · refine Or.inr ⟨t, ?_, by omega, hd, hq⟩
        have hidx : j - k = (j - (k + 1)) + 1 := by omega
        rw [hidx] at ht
        simpa using ht

/-- Every event in the give-trace of the pageflip loop is a give. -/
lemma pageflipLoop_gives_shape (l : List Stream) (k : Nat) :
    ∀ e ∈ (pageflipLoop k l).2.1, ∃ j fb, e = Ev.give j fb ∧ k ≤ j := by
  induction l generalizing k with
  | nil => simp [pageflipLoop]
  | cons s rest ih =>
    intro e he
    simp only [pageflipLoop, List.mem_append] at he
    rcases he with he | he
    · rcases List.mem_map.mp he with ⟨fb, _, rfl⟩
      exact ⟨k, fb, rfl, le_refl _⟩
    · rcases ih (k + 1) e he with ⟨j, fb, rfl, hk⟩
      exact ⟨j, fb, rfl, by omega⟩

/-- The collected updates are empty iff every displayed stream has an
empty pending-commit queue. -/
lemma pageflipLoop_ups_nil (l : List Stream) (k : Nat) :
    (pageflipLoop k l).2.2 = [] ↔ ∀ s ∈ l, s.display = true → s.fbQueue = [] := by
  induction l generalizing k with
  | nil => simp [pageflipLoop]
  | cons s rest ih =>
    simp only [pageflipLoop, List.append_eq_nil, ih, List.mem_cons]
    rw [pageflipStream_update]
    constructor
    · rintro ⟨h1, h2⟩ t ht hd
      rcases ht with rfl | ht
      · rcases hq : t.fbQueue with _ | ⟨a, b⟩
        · rfl
        · rw [hd, hq] at h1
          simp at h1
      · exact h2 t ht hd
    · intro h
      refine ⟨?_, fun t ht hd => h t (Or.inr ht) hd⟩
      rcases hd : s.display
      · simp [hd]
      · simp [hd, h s (Or.inl rfl) hd]


lemma pageflipLoop_gives_countP (l : List Stream) (k : Nat) (p : Ev → Bool)
    (hp : ∀ j fb, p (Ev.give j fb) = false) :
    (pageflipLoop k l).2.1.countP p = 0 := by
  rw [List.countP_eq_zero]
  intro e he
  rcases pageflipLoop_gives_shape l k e he with ⟨j, fb, rfl, -⟩
  simp [hp j fb]

lemma handle_pageflip_countFlips (ctx : Ctx) :
    countFlips (handle_pageflip ctx).2
      = (if (handle_pageflip ctx).1.kms_committed then 1 else 0) := by
  rw [handle_pageflip_evs, handle_pageflip_committed]
  unfold countFlips
  rw [List.countP_append, pageflipLoop_gives_countP _ _ _ (fun _ _ => rfl)]
  by_cases h : (pageflipLoop 0 ctx.streams).2.2.isEmpty <;> simp [h, isFlip]

lemma handle_pageflip_countCompletes (ctx : Ctx) :
    countCompletes (handle_pageflip ctx).2 = 0 := by
  rw [handle_pageflip_evs]
  unfold countCompletes
  rw [List.countP_append, pageflipLoop_gives_countP _ _ _ (fun _ _ => rfl)]
  by_cases h : (pageflipLoop 0 ctx.streams).2.2.isEmpty <;> simp [h, isComplete]

lemma handle_pageflip_countModeset (ctx : Ctx) :
    (handle_pageflip ctx).2.countP isModeset = 0 := by
  rw [handle_pageflip_evs]
  rw [List.countP_append, pageflipLoop_gives_countP _ _ _ (fun _ _ => rfl)]
  by_cases h : (pageflipLoop 0 ctx.streams).2.2.isEmpty <;> simp [h, isModeset]

lemma handle_pageflip_countWarn (ctx : Ctx) (i : Nat) :
    (handle_pageflip ctx).2.countP (isWarn i) = 0 := by
  rw [handle_pageflip_evs]
  rw [List.countP_append, pageflipLoop_gives_countP _ _ _ (fun _ _ => rfl)]
  by_cases h : (pageflipLoop 0 ctx.streams).2.2.isEmpty <;> simp [h, isWarn]

lemma readvid_disp_busy {ctx : Ctx} {i : Nat} {s : Stream} {vbuf : Nat}
    {rest : List Nat} (hs : ctx.streams.get? i = some s)
    (hc : s.capQueue = vbuf :: rest) (hd : s.display = true)
    (hb : ctx.kms_committed = true) :
    readvid ctx i
      = some ({ ctx with streams := ctx.streams.set i (appendStream s vbuf rest) },
              saveEvs ctx i vbuf ++ warnEvs i (appendStream s vbuf rest)) := by
  simp only [readvid, hs, hc, hd, hb, if_true]

lemma readvid_disp_idle {ctx : Ctx} {i : Nat} {s : Stream} {vbuf : Nat}
    {rest : List Nat} (hs : ctx.streams.get? i = some s)
    (hc : s.capQueue = vbuf :: rest) (hd : s.display = true)
    (hb : ctx.kms_committed = false) :
    readvid ctx i
      = some ((handle_pageflip
                 { ctx with streams := ctx.streams.set i (appendStream s vbuf rest) }).1,
              saveEvs ctx i vbuf ++ warnEvs i (appendStream s vbuf rest)
                ++ (handle_pageflip
                      { ctx with
                          streams := ctx.streams.set i (appendStream s vbuf rest) }).2) := by
  simp only [readvid, hs, hc, hd, hb, if_true, Bool.false_eq_true, if_false]

lemma readvid_nondisp {ctx : Ctx} {i : Nat} {s : Stream} {vbuf : Nat}
    {rest : List Nat} (hs : ctx.streams.get? i = some s)
    (hc : s.capQueue = vbuf :: rest) (hd : s.display = false) :
    readvid ctx i
      = some ({ ctx with streams := ctx.streams.set i (rotateStream s vbuf rest) },
              saveEvs ctx i vbuf ++ txEvs ctx i vbuf ++ [Ev.give i vbuf]) := by
  simp only [readvid, hs, hc, hd, Bool.false_eq_true, if_false]

lemma readvid_some_inv {ctx : Ctx} {i : Nat} {p : Ctx × List Ev}
    (h : readvid ctx i = some p) :
    ∃ s vbuf rest, ctx.streams.get? i = some s ∧ s.capQueue = vbuf :: rest := by
  unfold readvid at h
  split at h
  · exact absurd h (by simp)
  · rename_i s hs
    split at h
    · exact absurd h (by simp)
    · rename_i vbuf rest hc
      exact ⟨s, vbuf, rest, hs, hc⟩

lemma appendStream_fields (s : Stream) (vbuf : Nat) (rest : List Nat) :
    (appendStream s vbuf rest).num_bufs = s.num_bufs ∧
    (appendStream s vbuf rest).display = s.display ∧
    (appendStream s vbuf rest).kms_fb = s.kms_fb ∧
    (appendStream s vbuf rest).kms_old_fb = s.kms_old_fb := by
  simp [appendStream]

lemma appendStream_bufTotal (s : Stream) (vbuf : Nat) (rest : List Nat)
    (hc : s.capQueue = vbuf :: rest) (hd : s.display = true) :
    bufTotal (appendStream s vbuf rest) = bufTotal s := by
  simp [bufTotal, appendStream, hd, hc]
  omega

lemma rotateStream_bufTotal (s : Stream) (vbuf : Nat) (rest : List Nat)
    (hc : s.capQueue = vbuf :: rest) (hd : s.display = false) :
    bufTotal (rotateStream s vbuf rest) = bufTotal s := by
  simp [bufTotal, rotateStream, hd, hc]

lemma conserved_set_of {ctx : Ctx} {i : Nat} {s s' : Stream}
    (hs : ctx.streams.get? i = some s) (h : Conserved ctx)
    (hb : bufTotal s' = bufTotal s) (hn : s'.num_bufs = s.num_bufs) :
    Conserved { ctx with streams := ctx.streams.set i s' } := by
  intro t ht
  rcases List.mem_or_eq_of_mem_set ht with ht' | rfl
  · exact h t ht'
  · rw [hb, hn]
    exact h s (List.get?_mem hs)

lemma conserved_hp {ctx : Ctx} (h : Conserved ctx) :
    Conserved (handle_pageflip ctx).1 := by
  intro t ht
  rw [handle_pageflip_streams] at ht
  rcases List.mem_map.mp ht with ⟨s, hs, rfl⟩
  rw [pageflipStream_bufTotal, pageflipStream_num_bufs]
  exact h s hs

lemma conserved_readvid {ctx : Ctx} {i : Nat} {p : Ctx × List Ev}
    (h : Conserved ctx) (hr : readvid ctx i = some p) : Conserved p.1 := by
  rcases readvid_some_inv hr with ⟨s, vbuf, rest, hs, hc⟩
  cases hd : s.display
  · rw [readvid_nondisp hs hc hd] at hr
    cases hr
    exact conserved_set_of hs h (rotateStream_bufTotal s vbuf rest hc hd) rfl
  · cases hb : ctx.kms_committed
    · rw [readvid_disp_idle hs hc hd hb] at hr
      cases hr
      exact conserved_hp
        (conserved_set_of hs h (appendStream_bufTotal s vbuf rest hc hd) rfl)
    · rw [readvid_disp_busy hs hc hd hb] at hr
      cases hr
      exact conserved_set_of hs h (appendStream_bufTotal s vbuf rest hc hd) rfl

lemma setup_conserved {cfg : Cfg} (h : CfgOk cfg) : Conserved (setup cfg).1 := by
  intro t ht
  simp only [setup] at ht
  rcases List.mem_map.mp ht with ⟨⟨d, n⟩, hdn, rfl⟩
  have hn : 1 ≤ n := h _ hdn
  cases hdisp : cfg.use_display && d <;>
    simp [initStream, bufTotal, hdisp] <;> omega

lemma reach_conserved {cfg : Cfg} {ctx : Ctx} {tr : List Ev}
    (hcfg : CfgOk cfg) (h : Reach cfg ctx tr) : Conserved ctx := by
  induction h with
  | init => exact setup_conserved hcfg
  | step _ hstep ih =>
    cases hstep with
    | capReady i p hrv => exact conserved_readvid ih hrv
    | drmReady hb => exact conserved_hp ih

lemma saveEvs_countP (ctx : Ctx) (i vbuf : Nat) (p : Ev → Bool)
    (hp : ∀ j fb, p (Ev.save j fb) = false) :
    (saveEvs ctx i vbuf).countP p = 0 := by
  unfold saveEvs
  split <;> simp [hp]

lemma warnEvs_countP (i : Nat) (s : Stream) (p : Ev → Bool)
    (hp : ∀ j d, p (Ev.warn j d) = false) :
    (warnEvs i s).countP p = 0 := by
  unfold warnEvs
  split <;> simp [hp]

lemma txEvs_countP (ctx : Ctx) (i vbuf : Nat) (p : Ev → Bool)
    (hp : ∀ j fb, p (Ev.sink j fb) = false) :
    (txEvs ctx i vbuf).countP p = 0 := by
  unfold txEvs
  split <;> simp [hp]

lemma readvid_flip_facts {ctx : Ctx} {i : Nat} {p : Ctx × List Ev}
    (hr : readvid ctx i = some p) :
    (ctx.kms_committed = true → p.1.kms_committed = true ∧ countFlips p.2 = 0) ∧
    (ctx.kms_committed = false →
      countFlips p.2 = (if p.1.kms_committed then 1 else 0)) ∧
    countCompletes p.2 = 0 := by
  rcases readvid_some_inv hr with ⟨s, vbuf, rest, hs, hc⟩
  have hsF : (saveEvs ctx i vbuf).countP isFlip = 0 :=
    saveEvs_countP ctx i vbuf isFlip (fun _ _ => rfl)
  have hsC : (saveEvs ctx i vbuf).countP isComplete = 0 :=
    saveEvs_countP ctx i vbuf isComplete (fun _ _ => rfl)
  have htF : (txEvs ctx i vbuf).countP isFlip = 0 :=
    txEvs_countP ctx i vbuf isFlip (fun _ _ => rfl)
  have htC : (txEvs ctx i vbuf).countP isComplete = 0 :=
    txEvs_countP ctx i vbuf isComplete (fun _ _ => rfl)
  have hwF : (warnEvs i (appendStream s vbuf rest)).countP isFlip = 0 :=
    warnEvs_countP i _ isFlip (fun _ _ => rfl)
  have hwC : (warnEvs i (appendStream s vbuf rest)).countP isComplete = 0 :=
    warnEvs_countP i _ isComplete (fun _ _ => rfl)
  cases hd : s.display
  · rw [readvid_nondisp hs hc hd] at hr
    cases hr
    refine ⟨fun hb => ⟨hb, ?_⟩, fun hb => ?_, ?_⟩
    · unfold countFlips
      simp [List.countP_append, hsF, htF, isFlip]
    · have : ctx.kms_committed = false := hb
      unfold countFlips
      simp [List.countP_append, hsF, htF, isFlip, this]
    · unfold countCompletes
      simp [List.countP_append, hsC, htC, isComplete]
  · cases hb : ctx.kms_committed
    · rw [readvid_disp_idle hs hc hd hb] at hr
      cases hr
      refine ⟨fun hcontra => absurd hcontra (by simp), fun _ => ?_, ?_⟩
      · have hhp := handle_pageflip_countFlips
          { ctx with streams := ctx.streams.set i (appendStream s vbuf rest) }
        unfold countFlips at hhp ⊢
        simp only [List.countP_append, hsF, hwF, hhp]
        simp
      · have hhp := handle_pageflip_countCompletes
          { ctx with streams := ctx.streams.set i (appendStream s vbuf rest) }
        unfold countCompletes at hhp ⊢
        simp only [List.countP_append, hsC, hwC, hhp]
    · rw [readvid_disp_busy hs hc hd hb] at hr
      cases hr
      refine ⟨fun _ => ⟨hb, ?_⟩,
              fun hcontra => absurd hcontra (by simp),
              ?_⟩
      · unfold countFlips
        simp [List.countP_append, hsF, hwF]
      · unfold countCompletes
        simp [List.countP_append, hsC, hwC]

lemma setup_trace_counts (cfg : Cfg) (p : Ev → Bool)
    (h1 : p Ev.modeset = false) (h2 : ∀ j, p (Ev.streamOn j) = false) :
    (setup cfg).2.countP p = 0 := by
  unfold setup
  rw [List.countP_append]
  have hmap : ((List.range (cfg.streams.map
      (fun q => initStream (cfg.use_display && q.1) q.2)).length).map
        Ev.streamOn).countP p = 0 := by
    rw [List.countP_eq_zero]
    intro e he
    rcases List.mem_map.mp he with ⟨j, -, rfl⟩
    simp [h2]
  rw [hmap]
  split <;> simp [h1]

/-- In every reachable state, the number of flip commits issued equals the
number of flip completions processed, plus one exactly when a flip is
in flight. -/
lemma reach_flip_count {cfg : Cfg} {ctx : Ctx} {tr : List Ev}
    (h : Reach cfg ctx tr) :
    countFlips tr = countCompletes tr + (if ctx.kms_committed then 1 else 0) := by
  induction h with
  | init =>
    have hf : countFlips (setup cfg).2 = 0 :=
      setup_trace_counts cfg isFlip rfl (fun _ => rfl)
    have hc : countCompletes (setup cfg).2 = 0 :=
      setup_trace_counts cfg isComplete rfl (fun _ => rfl)
    rw [hf, hc]
    simp [setup]
  | @step ctx1 tr1 evs1 ctx2 hr hstep ih =>
    cases hstep with
    | capReady i p hrv =>
      rcases readvid_flip_facts hrv with ⟨hT, hF, hC⟩
      unfold countFlips countCompletes at *
      rw [List.countP_append, List.countP_append, hC]
      cases hb : ctx1.kms_committed
      · rw [hF hb]
        rw [hb] at ih
        simp at ih
        cases hb2 : p.1.kms_committed <;> simp [hb2] <;> omega
      · rcases hT hb with ⟨hcomm, hflips⟩
        rw [hb] at ih
        rw [hflips, hcomm]
        simp at ih ⊢
        omega
    | drmReady hb =>
      have hf := handle_pageflip_countFlips ctx1
      have hcc := handle_pageflip_countCompletes ctx1
      unfold countFlips countCompletes at *
      rw [hb] at ih
      simp only [readdrm]
      rw [List.countP_append, List.countP_append, List.countP_cons,
        List.countP_cons, hcc, hf]
      simp only [isFlip, isComplete]
      simp at ih ⊢
      omega

lemma handle_pageflip_countP_zero (ctx : Ctx) (p : Ev → Bool)
    (hgive : ∀ j fb, p (Ev.give j fb) = false)
    (hflip : ∀ us, p (Ev.flipCommit us) = false) :
    (handle_pageflip ctx).2.countP p = 0 := by
  rw [handle_pageflip_evs, List.countP_append,
    pageflipLoop_gives_countP _ _ _ hgive]
  split <;> simp [hflip]

lemma readvid_countP_zero {ctx : Ctx} {i : Nat} {pp : Ctx × List Ev}
    (hr : readvid ctx i = some pp) (p : Ev → Bool)
    (hsave : ∀ j fb, p (Ev.save j fb) = false)
    (hsink : ∀ j fb, p (Ev.sink j fb) = false)
    (hgive : ∀ j fb, p (Ev.give j fb) = false)
    (hwarn : ∀ j d, p (Ev.warn j d) = false)
    (hflip : ∀ us, p (Ev.flipCommit us) = false) :
    pp.2.countP p = 0 := by
  rcases readvid_some_inv hr with ⟨s, vbuf, rest, hs, hc⟩
  cases hd : s.display
  · rw [readvid_nondisp hs hc hd] at hr
    cases hr
    simp [List.countP_append, saveEvs_countP _ _ _ _ hsave,
      txEvs_countP _ _ _ _ hsink, hgive]
  · cases hb : ctx.kms_committed
    · rw [readvid_disp_idle hs hc hd hb] at hr
      cases hr
      simp [List.countP_append, saveEvs_countP _ _ _ _ hsave,
        warnEvs_countP _ _ _ hwarn, handle_pageflip_countP_zero _ _ hgive hflip]
    · rw [readvid_disp_busy hs hc hd hb] at hr
      cases hr
      simp [List.countP_append, saveEvs_countP _ _ _ _ hsave,
        warnEvs_countP _ _ _ hwarn]

/-- With the display in use, the modeset commit is the very first event of
every reachable trace, and no other modeset is ever issued. -/
lemma reach_modeset_first {cfg : Cfg} {ctx : Ctx} {tr : List Ev}
    (h : Reach cfg ctx tr) (hd : cfg.use_display = true) :
    ∃ rest, tr = Ev.modeset :: rest ∧ rest.countP isModeset = 0 := by
  induction h with
  | init =>
    refine ⟨(List.range (cfg.streams.map
        (fun p => initStream (cfg.use_display && p.1) p.2)).length).map Ev.streamOn,
      by simp [setup, hd], ?_⟩
    rw [List.countP_eq_zero]
    intro e he
    rcases List.mem_map.mp he with ⟨j, -, rfl⟩
    simp [isModeset]
  | @step ctx1 tr1 evs1 ctx2 hr hstep ih =>
    rcases ih with ⟨rest, rfl, h0⟩
    refine ⟨rest ++ evs1, by simp, ?_⟩
    rw [List.countP_append, h0]
    cases hstep with
    | capReady i p hrv =>
      rw [readvid_countP_zero hrv isModeset (fun _ _ => rfl) (fun _ _ => rfl)
        (fun _ _ => rfl) (fun _ _ => rfl) (fun _ => rfl)]
    | drmReady hb =>
      simp only [readdrm, List.countP_cons,
        handle_pageflip_countP_zero _ isModeset (fun _ _ => rfl) (fun _ => rfl)]
      simp [isModeset]

/-- The control-input callback issues stream-off in reverse registration
order and then exits the process. -/
lemma readkey_eq (ctx : Ctx) :
    readkey ctx = ((List.range ctx.streams.length).reverse.map Ev.streamOff)
      ++ [Ev.procExit 0] := by
  unfold readkey
  congr 1
  have h1 : ctx.streams.enum.reverse.map (fun p => Ev.streamOff p.1)
      = (ctx.streams.enum.map (fun p => Ev.streamOff p.1)).reverse := by
    rw [List.map_reverse]
  have h2 : ctx.streams.enum.map (fun p => Ev.streamOff p.1)
      = (ctx.streams.enum.map Prod.fst).map Ev.streamOff := by
    rw [List.map_map]
    rfl
  rw [h1, h2, List.enum_map_fst, ← List.map_reverse]

lemma warnEvs_count_self (i : Nat) (s' : Stream) :
    (warnEvs i s').countP (isWarn i)
      = if s'.num_bufs - 1 ≤ s'.fbQueue.length then 1 else 0 := by
  unfold warnEvs
  split <;> simp [isWarn]

lemma readvid_warn_count {ctx : Ctx} {i : Nat} {pp : Ctx × List Ev}
    {s : Stream} {vbuf : Nat} {rest : List Nat}
    (hs : ctx.streams.get? i = some s) (hc : s.capQueue = vbuf :: rest)
    (hd : s.display = true) (hr : readvid ctx i = some pp) :
    pp.2.countP (isWarn i)
      = if s.num_bufs - 1 ≤ s.fbQueue.length + 1 then 1 else 0 := by
  have hw : (warnEvs i (appendStream s vbuf rest)).countP (isWarn i)
      = if s.num_bufs - 1 ≤ s.fbQueue.length + 1 then 1 else 0 := by
    rw [warnEvs_count_self]
    simp [appendStream]
  cases hb : ctx.kms_committed
  · rw [readvid_disp_idle hs hc hd hb] at hr
    cases hr
    simp only [List.countP_append,
      saveEvs_countP ctx i vbuf (isWarn i) (fun _ _ => rfl), hw,
      handle_pageflip_countP_zero _ (isWarn i) (fun j fb => by simp [isWarn])
        (fun us => by simp [isWarn])]
    omega
  · rw [readvid_disp_busy hs hc hd hb] at hr
    cases hr
    simp only [List.countP_append,
      saveEvs_countP ctx i vbuf (isWarn i) (fun _ _ => rfl), hw]
    omega

lemma assignGeoms_get? (hd vd np : Nat) (l : List GCfg) (d i : Nat) :
    (assignGeoms hd vd np l d)[i]?
      = (l[i]?).map (fun c =>
          if c.display then
            some (planeGeom hd vd np c.bufW c.bufH
              (d + (l.take i).countP (fun q => q.display)))
          else none) := by
  induction l generalizing d i with
  | nil => simp [assignGeoms]
  | cons c rest ih =>
    cases i with
    | zero => cases hcd : c.display <;> simp [assignGeoms, hcd]
    | succ n =>
      have harith : ∀ x : Nat, (d + 1) + x = d + (x + 1) := by omega
      cases hcd : c.display <;>
        simp [assignGeoms, hcd, ih, List.countP_cons, harith]

/-- C1: Buffer conservation: in every state the event loop can reach, for
every stream, the buffers owned by the capture queue, plus those in the
pending-commit queue, plus the one on screen and the one retiring, total
the stream's `num_bufs` (buffers are in pump transit only inside a
dispatch); moreover both dispatch steps, `readvid` and `handle_pageflip`,
preserve this sum. -/
theorem C1_buffer_conservation :
    (∀ (cfg : Cfg) (ctx : Ctx) (tr : List Ev), CfgOk cfg → Reach cfg ctx tr →
       Conserved ctx) ∧
    (∀ (ctx : Ctx) (i : Nat) (p : Ctx × List Ev), Conserved ctx →
       readvid ctx i = some p → Conserved p.1) ∧
    (∀ ctx : Ctx, Conserved ctx → Conserved (handle_pageflip ctx).1) :=
  ⟨fun _ _ _ hcfg h => reach_conserved hcfg h,
   fun _ _ _ h hr => conserved_readvid h hr,
   fun _ h => conserved_hp h⟩

theorem C1_buffer_conservation_witness :
    Conserved ctxW1 ∧ Conserved pW1.1 ∧ Conserved (handle_pageflip ctxW1).1 :=
  ⟨C1_buffer_conservation.1 cfgW1 ctxW1 (setup cfgW1).2 (by decide) Reach.init,
   C1_buffer_conservation.2.1 ctxW1 0 pW1
     (C1_buffer_conservation.1 cfgW1 ctxW1 (setup cfgW1).2 (by decide) Reach.init)
     (by decide),
   C1_buffer_conservation.2.2 ctxW1
     (C1_buffer_conservation.1 cfgW1 ctxW1 (setup cfgW1).2 (by decide) Reach.init)⟩

/-- C6 counterexample: the control-input callback does not set a stop flag
observed by the scheduler loop — it terminates the process inside the
callback (`exit(0)` is its final effect) after the reverse-order
stream-offs, and the loop condition of `run` is the constant `True`,
consulting no stop flag, so `run()` never returns normally. -/
theorem C6_counterexample :
    readkey ctxW6 = [Ev.streamOff 1, Ev.streamOff 0, Ev.procExit 0] ∧
    Ev.procExit 0 ∈ readkey ctxW6 ∧
    run_loop_cond ctxW6 = true := by
  refine ⟨by decide, by decide, rfl⟩

/-- C6 (amended): when the control input becomes ready, its callback
issues device stream-off on every stream in reverse registration order and
then terminates the process with `exit(0)` from inside the callback; the
scheduler's loop condition is constantly true (there is no stop flag and
`run()` does not return normally). -/
theorem C6_shutdown_amended (ctx : Ctx) :
    readkey ctx = ((List.range ctx.streams.length).reverse.map Ev.streamOff)
      ++ [Ev.procExit 0] ∧
    run_loop_cond ctx = true :=
  ⟨readkey_eq ctx, rfl⟩

/-- C7: For every configuration with at least one displayed stream, the
synchronous modeset commit is issued exactly once, at startup, and every
prefix of the trace that contains a flip commit already contains the
modeset commit — no execution issues a flip before the modeset. -/
theorem C7_modeset_once_before_flips :
    ∀ (cfg : Cfg) (ctx : Ctx) (tr : List Ev), Reach cfg ctx tr →
      (∃ p ∈ cfg.streams, (cfg.use_display && p.1) = true) →
      tr.countP isModeset = 1 ∧
      (∀ t1 t2, tr = t1 ++ t2 → (∃ us, Ev.flipCommit us ∈ t1) →
        Ev.modeset ∈ t1) := by
  intro cfg ctx tr h hdisp
  have hud : cfg.use_display = true := by
    rcases hdisp with ⟨p, -, hp⟩
    exact (Bool.and_eq_true _ _).mp hp |>.1
  rcases reach_modeset_first h hud with ⟨rest, rfl, h0⟩
  constructor
  · simp [List.countP_cons, h0, isModeset]
  · rintro t1 t2 heq ⟨us, hus⟩
    cases t1 with
    | nil => simp at hus
    | cons a t1' =>
      have : a = Ev.modeset := by
        have := congrArg (fun l => l.head?) heq
        simpa using this.symm
      rw [this]
      exact List.mem_cons_self _ _

theorem C7_modeset_once_before_flips_witness :
    (setup cfgW7).2.countP isModeset = 1 :=
  (C7_modeset_once_before_flips cfgW7 (setup cfgW7).1 (setup cfgW7).2
    Reach.init ⟨(true, 2), by decide, by decide⟩).1

/-- C8: Non-display round trip: a capture-ready dispatch on a non-display
stream dequeues the head buffer, forwards it to the configured sink and
then requeues it to the capture device within the same dispatch — the
buffer ends up back in the capture queue (eligible to be taken again),
the queue is a permutation of the old one (no leak, no duplicate), other
streams and the in-flight flag are untouched, and no commit is issued. -/
theorem C8_nondisplay_roundtrip :
    ∀ (ctx : Ctx) (i : Nat) (s : Stream) (vbuf : Nat) (rest : List Nat),
      ctx.streams.get? i = some s → s.display = false →
      s.capQueue = vbuf :: rest →
      ∃ ctx', readvid ctx i
          = some (ctx', saveEvs ctx i vbuf ++ txEvs ctx i vbuf ++ [Ev.give i vbuf]) ∧
        ctx'.streams.get? i = some (rotateStream s vbuf rest) ∧
        (rotateStream s vbuf rest).capQueue = rest ++ [vbuf] ∧
        vbuf ∈ (rotateStream s vbuf rest).capQueue ∧
        (rotateStream s vbuf rest).capQueue.Perm s.capQueue ∧
        (s.capQueue.Nodup → (rotateStream s vbuf rest).capQueue.Nodup) ∧
        (∀ j, j ≠ i → ctx'.streams.get? j = ctx.streams.get? j) ∧
        ctx'.kms_committed = ctx.kms_committed ∧
        countFlips (saveEvs ctx i vbuf ++ txEvs ctx i vbuf ++ [Ev.give i vbuf]) = 0 ∧
        (txMatch ctx.tx i = true →
          txEvs ctx i vbuf ++ [Ev.give i vbuf]
            = [Ev.sink i vbuf, Ev.give i vbuf]) := by
  intro ctx i s vbuf rest hs hd hc
  have hlen : i < ctx.streams.length := (List.get?_eq_some.mp hs).1
  have hperm : (rotateStream s vbuf rest).capQueue.Perm s.capQueue := by
    rw [hc]
    show (rest ++ [vbuf]).Perm (vbuf :: rest)
    exact List.perm_append_comm
  refine ⟨_, readvid_nondisp hs hc hd, ?_, rfl, ?_, hperm, ?_, ?_, rfl, ?_, ?_⟩
  · exact get?_set_self _ _ _ hlen
  · simp [rotateStream]
  · exact fun h => hperm.nodup_iff.mpr (hc ▸ h)
  · intro j hj
    exact get?_set_other _ _ _ _ hj
  · unfold countFlips
    rw [List.countP_append, List.countP_append,
      saveEvs_countP ctx i vbuf isFlip (fun _ _ => rfl),
      txEvs_countP ctx i vbuf isFlip (fun _ _ => rfl)]
    simp [isFlip]
  · intro htx
    simp [txEvs, htx]

theorem C8_nondisplay_roundtrip_witness :
    ∃ ctx', readvid ctxW8 0
        = some (ctx', saveEvs ctxW8 0 0 ++ txEvs ctxW8 0 0 ++ [Ev.give 0 0]) ∧
      ctx'.streams.get? 0 = some (rotateStream (initStream false 3) 0 [1, 2]) ∧
      (rotateStream (initStream false 3) 0 [1, 2]).capQueue = [1, 2] ++ [0] ∧
      0 ∈ (rotateStream (initStream false 3) 0 [1, 2]).capQueue ∧
      (rotateStream (initStream false 3) 0 [1, 2]).capQueue.Perm
        (initStream false 3).capQueue ∧
      ((initStream false 3).capQueue.Nodup →
        (rotateStream (initStream false 3) 0 [1, 2]).capQueue.Nodup) ∧
      (∀ j, j ≠ 0 → ctx'.streams.get? j = ctxW8.streams.get? j) ∧
      ctx'.kms_committed = ctxW8.kms_committed ∧
      countFlips (saveEvs ctxW8 0 0 ++ txEvs ctxW8 0 0 ++ [Ev.give 0 0]) = 0 ∧
      (txMatch ctxW8.tx 0 = true →
        txEvs ctxW8 0 0 ++ [Ev.give 0 0] = [Ev.sink 0 0, Ev.give 0 0]) :=
  C8_nondisplay_roundtrip ctxW8 0 (initStream false 3) 0 [1, 2]
    (by decide) (by decide) (by decide)

/-- C4 counterexample: with a flip commit already outstanding
(`kms_committed = true`), invoking the flip path (`handle_pageflip`, the
only code that issues flip commits) is not rejected: it clears the
in-flight flag and issues another flip commit.  `handle_pageflip` contains
no assertion on the in-flight flag (its only assertion, cam.py 412, is on
the buffer type), so the attempt does not raise an `AssertionViolation`. -/
theorem C4_counterexample :
    ctxW4.kms_committed = true ∧
    (handle_pageflip ctxW4).2 = [Ev.flipCommit [(0, 1)]] ∧
    (handle_pageflip ctxW4).1.kms_committed = true := by
  refine ⟨rfl, by decide, by decide⟩

/-- C4 (amended): no AssertionViolation guards double flips; instead the
event loop avoids ever attempting one: in every reachable state the number
of issued flip commits never exceeds the number of processed completions
plus one, and when no flip is in flight the two are equal — commits and
completions strictly alternate. -/
theorem C4_no_double_flip_amended :
    ∀ (cfg : Cfg) (ctx : Ctx) (tr : List Ev), Reach cfg ctx tr →
      countFlips tr ≤ countCompletes tr + 1 ∧
      (ctx.kms_committed = false → countFlips tr = countCompletes tr) := by
  intro cfg ctx tr h
  have hcount := reach_flip_count h
  constructor
  · cases hb : ctx.kms_committed <;> rw [hb] at hcount <;> simp at hcount <;> omega
  · intro hb
    rw [hb] at hcount
    simpa using hcount

theorem C4_no_double_flip_amended_witness :
    countFlips (setup cfgW7).2 ≤ countCompletes (setup cfgW7).2 + 1 ∧
    ((setup cfgW7).1.kms_committed = false →
      countFlips (setup cfgW7).2 = countCompletes (setup cfgW7).2) :=
  C4_no_double_flip_amended cfgW7 (setup cfgW7).1 (setup cfgW7).2 Reach.init

/-- C2: In every reachable state the in-flight flag `kms_committed` is
true exactly while a flip commit has been issued whose completion has not
yet been processed (and false exactly when the counts agree); and while it
is true, a capture-ready dispatch on a displayed stream only appends the
new buffer to that stream's pending-commit queue and issues no commit. -/
theorem C2_flip_in_flight :
    ∀ (cfg : Cfg) (ctx : Ctx) (tr : List Ev), Reach cfg ctx tr →
      (ctx.kms_committed = true ↔ countFlips tr = countCompletes tr + 1) ∧
      (ctx.kms_committed = false ↔ countFlips tr = countCompletes tr) ∧
      (∀ i s vbuf rest, ctx.streams.get? i = some s → s.display = true →
        s.capQueue = vbuf :: rest → ctx.kms_committed = true →
        readvid ctx i
          = some ({ ctx with
                      streams := ctx.streams.set i (appendStream s vbuf rest) },
                  saveEvs ctx i vbuf ++ warnEvs i (appendStream s vbuf rest)) ∧
        (appendStream s vbuf rest).fbQueue = s.fbQueue ++ [vbuf] ∧
        countFlips (saveEvs ctx i vbuf
          ++ warnEvs i (appendStream s vbuf rest)) = 0) := by
  intro cfg ctx tr h
  have hcount := reach_flip_count h
  refine ⟨?_, ?_, ?_⟩
  · cases hb : ctx.kms_committed
    · rw [hb] at hcount
      simp at hcount
      constructor
      · intro hx
        exact absurd hx (by simp)
      · intro hx
        exfalso
        omega
    · rw [hb] at hcount
      simp at hcount
      simp [hcount]
  · cases hb : ctx.kms_committed
    · rw [hb] at hcount
      simp at hcount
      simp [hcount]
    · rw [hb] at hcount
      simp at hcount
      constructor
      · intro hx
        exact absurd hx (by simp)
      · intro hx
        exfalso
        omega
  · intro i s vbuf rest hs hd hc hb
    refine ⟨readvid_disp_busy hs hc hd hb, by simp [appendStream], ?_⟩
    unfold countFlips
    rw [List.countP_append, saveEvs_countP ctx i vbuf isFlip (fun _ _ => rfl),
      warnEvs_countP i _ isFlip (fun _ _ => rfl)]

theorem C2_flip_in_flight_witness :
    (pW2.1.kms_committed = true ↔ countFlips trW2 = countCompletes trW2 + 1) ∧
    readvid pW2.1 0
      = some ({ pW2.1 with streams := pW2.1.streams.set 0 (appendStream sW2 2 []) },
              saveEvs pW2.1 0 2 ++ warnEvs 0 (appendStream sW2 2 [])) := by
  have hr : Reach cfgW2 pW2.1 trW2 :=
    Reach.step Reach.init (Step.capReady ctxW2 0 pW2 (by decide))
  have hmain := C2_flip_in_flight cfgW2 pW2.1 trW2 hr
  exact ⟨hmain.1,
    (hmain.2.2 0 sW2 2 [] (by decide) (by decide) (by decide) (by decide)).1⟩

/-- C3: Flip-complete algorithm: one call of `handle_pageflip` returns
each displayed stream's retiring buffer to its capture queue; a displayed
stream with a non-empty pending-commit queue pops the oldest entry (FIFO)
as its new on-screen buffer and contributes exactly its queue head to the
collected plane updates, while a stream with an empty queue keeps its
on-screen buffer and contributes nothing; non-displayed streams are
untouched; and exactly one flip commit, batching all collected updates in
a single transaction, is issued iff at least one displayed stream had a
pending buffer. -/
theorem C3_flip_complete_algorithm :
    ∀ (ctx : Ctx) (i : Nat) (s : Stream), ctx.streams.get? i = some s →
      ((s.display = false → (handle_pageflip ctx).1.streams.get? i = some s ∧
          (∀ fb, (i, fb) ∉ (pageflipLoop 0 ctx.streams).2.2)) ∧
       (s.display = true →
          ∃ s', (handle_pageflip ctx).1.streams.get? i = some s' ∧
            s'.capQueue = s.capQueue ++ s.kms_old_fb.toList ∧
            (s.fbQueue = [] →
              s'.kms_fb = s.kms_fb ∧ s'.kms_old_fb = none ∧ s'.fbQueue = [] ∧
              (∀ fb, (i, fb) ∉ (pageflipLoop 0 ctx.streams).2.2)) ∧
            (∀ fb qrest, s.fbQueue = fb :: qrest →
              s'.kms_fb = fb ∧ s'.kms_old_fb = some s.kms_fb ∧
              s'.fbQueue = qrest ∧
              (i, fb) ∈ (pageflipLoop 0 ctx.streams).2.2))) ∧
      countFlips (handle_pageflip ctx).2
        = (if (pageflipLoop 0 ctx.streams).2.2.isEmpty then 0 else 1) ∧
      ((pageflipLoop 0 ctx.streams).2.2 = [] ↔
        ∀ t ∈ ctx.streams, t.display = true → t.fbQueue = []) ∧
      (∀ us, Ev.flipCommit us ∈ (handle_pageflip ctx).2 →
        us = (pageflipLoop 0 ctx.streams).2.2) ∧
      (∀ j fb, (j, fb) ∈ (pageflipLoop 0 ctx.streams).2.2 ↔
        ∃ t, ctx.streams.get? j = some t ∧ t.display = true ∧
          t.fbQueue.head? = some fb) := by
  intro ctx i s hs
  have hget : ∀ j, (handle_pageflip ctx).1.streams.get? j
      = (ctx.streams.get? j).map (fun t => (pageflipStream t).1) := by
    intro j
    rw [handle_pageflip_streams, List.get?_map]
  have hups_mem : ∀ j fb, (j, fb) ∈ (pageflipLoop 0 ctx.streams).2.2 ↔
      ∃ t, ctx.streams.get? j = some t ∧ t.display = true ∧
        t.fbQueue.head? = some fb := by
    intro j fb
    rw [pageflipLoop_update_mem]
    simp
  refine ⟨⟨?_, ?_⟩, ?_, pageflipLoop_ups_nil _ _, ?_, hups_mem⟩
  · intro hd
    refine ⟨?_, ?_⟩
    · rw [hget, hs]
      simp [pageflipStream_nondisplay s hd]
    · intro fb hmem
      rcases (hups_mem i fb).mp hmem with ⟨t, ht, htd, -⟩
      rw [hs] at ht
      cases ht
      rw [hd] at htd
      exact absurd htd (by simp)
  · intro hd
    refine ⟨(pageflipStream s).1, ?_, pageflipStream_capQueue s hd, ?_, ?_⟩
    · rw [hget, hs]
      rfl
    · intro hq
      rcases pageflipStream_empty s hd hq with ⟨h1, h2, h3, -⟩
      refine ⟨h1, h2, h3, ?_⟩
      intro fb hmem
      rcases (hups_mem i fb).mp hmem with ⟨t, ht, -, hth⟩
      rw [hs] at ht
      cases ht
      rw [hq] at hth
      exact absurd hth (by simp)
    · intro fb qrest hq
      rcases pageflipStream_pop s hd fb qrest hq with ⟨h1, h2, h3, -⟩
      refine ⟨h1, h2, h3, ?_⟩
      exact (hups_mem i fb).mpr ⟨s, hs, hd, by rw [hq]; rfl⟩
  · rw [handle_pageflip_countFlips, handle_pageflip_committed]
    cases he : (pageflipLoop 0 ctx.streams).2.2.isEmpty <;> simp
  · intro us hus
    rw [handle_pageflip_evs, List.mem_append] at hus
    rcases hus with hl | hr
    · exfalso
      rcases pageflipLoop_gives_shape _ _ _ hl with ⟨j, fb, heq, -⟩
      simp at heq
    · revert hr
      split
      · intro hr
        exact absurd hr (by simp)
      · intro hr
        rw [List.mem_singleton] at hr
        injection hr

theorem C3_flip_complete_algorithm_witness :
    countFlips (handle_pageflip ctxW3).2
      = (if (pageflipLoop 0 ctxW3.streams).2.2.isEmpty then 0 else 1) ∧
    ((0, 2) ∈ (pageflipLoop 0 ctxW3.streams).2.2 ↔
      ∃ t, ctxW3.streams.get? 0 = some t ∧ t.display = true ∧
        t.fbQueue.head? = some 2) ∧
    (sW3.display = true →
      ∃ s', (handle_pageflip ctxW3).1.streams.get? 0 = some s' ∧
        s'.capQueue = sW3.capQueue ++ sW3.kms_old_fb.toList ∧
        (sW3.fbQueue = [] →
          s'.kms_fb = sW3.kms_fb ∧ s'.kms_old_fb = none ∧ s'.fbQueue = [] ∧
          (∀ fb, (0, fb) ∉ (pageflipLoop 0 ctxW3.streams).2.2)) ∧
        (∀ fb qrest, sW3.fbQueue = fb :: qrest →
          s'.kms_fb = fb ∧ s'.kms_old_fb = some sW3.kms_fb ∧
          s'.fbQueue = qrest ∧
          (0, fb) ∈ (pageflipLoop 0 ctxW3.streams).2.2)) := by
  have h := C3_flip_complete_algorithm ctxW3 0 sW3 (by decide)
  exact ⟨h.2.1, h.2.2.2.2 0 2, h.1.2⟩

lemma warn_not_in_hp (ctx : Ctx) (i d : Nat) :
    Ev.warn i d ∉ (handle_pageflip ctx).2 := by
  intro hmem
  rw [handle_pageflip_evs, List.mem_append] at hmem
  rcases hmem with hl | hr
  · rcases pageflipLoop_gives_shape _ _ _ hl with ⟨j, fb, heq, -⟩
    simp at heq
  · revert hr
    split
    · simp
    · intro hr
      rw [List.mem_singleton] at hr
      simp at hr

lemma warn_not_in_save (ctx : Ctx) (i vbuf j d : Nat) :
    Ev.warn j d ∉ saveEvs ctx i vbuf := by
  unfold saveEvs
  split <;> simp

lemma warnEvs_mem (i : Nat) (s' : Stream) (d : Nat) :
    Ev.warn i d ∈ warnEvs i s' → d = s'.fbQueue.length := by
  unfold warnEvs
  split <;> simp

lemma readvid_warn_mem {ctx : Ctx} {i : Nat} {pp : Ctx × List Ev}
    {s : Stream} {vbuf : Nat} {rest : List Nat} {d : Nat}
    (hs : ctx.streams.get? i = some s) (hc : s.capQueue = vbuf :: rest)
    (hd : s.display = true) (hr : readvid ctx i = some pp)
    (hmem : Ev.warn i d ∈ pp.2) : d = s.fbQueue.length + 1 := by
  have hw : Ev.warn i d ∈ warnEvs i (appendStream s vbuf rest) →
      d = s.fbQueue.length + 1 := by
    intro h
    have := warnEvs_mem i (appendStream s vbuf rest) d h
    simpa [appendStream] using this
  cases hb : ctx.kms_committed
  · rw [readvid_disp_idle hs hc hd hb] at hr
    cases hr
    simp only [List.mem_append] at hmem
    rcases hmem with (hm | hm) | hm
    · exact absurd hm (warn_not_in_save ctx i vbuf i d)
    · exact hw hm
    · exact absurd hm (warn_not_in_hp _ i d)
  · rw [readvid_disp_busy hs hc hd hb] at hr
    cases hr
    simp only [List.mem_append] at hmem
    rcases hmem with hm | hm
    · exact absurd hm (warn_not_in_save ctx i vbuf i d)
    · exact hw hm

/-- C5: Backpressure bound: in every reachable state no displayed stream's
pending-commit queue exceeds `num_bufs - 1`; and a capture-ready dispatch
on a displayed stream emits exactly one backpressure warning when the
queue depth after appending — which is the previous depth plus one, and
is the depth every warning reports — is at least `num_bufs - 1`, and none
otherwise. -/
theorem C5_backpressure :
    ∀ (cfg : Cfg) (ctx : Ctx) (tr : List Ev), CfgOk cfg → Reach cfg ctx tr →
      (∀ s ∈ ctx.streams, s.display = true →
        s.fbQueue.length ≤ s.num_bufs - 1) ∧
      (∀ i s vbuf rest pp, ctx.streams.get? i = some s → s.display = true →
        s.capQueue = vbuf :: rest → readvid ctx i = some pp →
        pp.2.countP (isWarn i)
          = (if s.num_bufs - 1 ≤ s.fbQueue.length + 1 then 1 else 0) ∧
        (∀ d, Ev.warn i d ∈ pp.2 → d = s.fbQueue.length + 1)) := by
  intro cfg ctx tr hcfg h
  constructor
  · intro s hsmem hd
    have hcons := reach_conserved hcfg h s hsmem
    unfold bufTotal at hcons
    rw [hd] at hcons
    simp at hcons
    omega
  · intro i s vbuf rest pp hs hd hc hr
    exact ⟨readvid_warn_count hs hc hd hr,
           fun d hm => readvid_warn_mem hs hc hd hr hm⟩

theorem C5_backpressure_witness :
    (∀ s ∈ ctxW5.streams, s.display = true →
      s.fbQueue.length ≤ s.num_bufs - 1) ∧
    pW5.2.countP (isWarn 0)
      = (if (initStream true 3).num_bufs - 1
            ≤ (initStream true 3).fbQueue.length + 1 then 1 else 0) := by
  have h := C5_backpressure cfgW5 ctxW5 (setup cfgW5).2 (by decide) Reach.init
  exact ⟨h.1,
    (h.2 0 (initStream true 3) 1 [2] pW5 (by decide) (by decide) (by decide)
      (by decide)).1⟩

lemma countP_take_lt (l : List GCfg) (i : Nat) (c : GCfg)
    (hc : l[i]? = some c) (hcd : c.display = true) :
    (l.take i).countP (fun q => q.display) + 1
      ≤ l.countP (fun q => q.display) := by
  have hsplit : l = l.take i ++ l.drop i := (List.take_append_drop i l).symm
  have hdrop : (l.drop i)[0]? = some c := by
    rw [List.getElem?_drop]
    simpa using hc
  rcases hdd : l.drop i with _ | ⟨c0, t⟩
  · rw [hdd] at hdrop
    simp at hdrop
  · rw [hdd] at hdrop
    simp at hdrop
    cases hdrop
    conv_rhs => rw [hsplit]
    rw [List.countP_append, hdd, List.countP_cons]
    simp [hcd]

/-- C9: Plane geometry: at setup, displayed streams are tiled in ascending
stream-index order (the k-th displayed stream gets display index k); the
grid cell is the full mode width when there is a single displayed stream
and half otherwise, the full height for up to two and half for more; each
source region is the buffer size clipped to the cell, centred with
symmetric offsets (the two margins differ by at most the rounding unit);
the destination region has the clipped source's size and sits at its grid
cell's corner of the mode box (left or right edge by column parity, top or
bottom edge by row). -/
theorem C9_plane_geometry :
    ∀ (hd vd : Nat) (cfgs : List GCfg) (i : Nat) (c : GCfg),
      cfgs[i]? = some c → c.display = true →
      ∃ g, (init_kms_geoms hd vd cfgs)[i]? = some (some g) ∧
        g = planeGeom hd vd (cfgs.countP (fun q => q.display)) c.bufW c.bufH
              ((cfgs.take i).countP (fun q => q.display)) ∧
        g.srcW = min c.bufW
          (hd / (if cfgs.countP (fun q => q.display) = 1 then 1 else 2)) ∧
        g.srcH = min c.bufH
          (vd / (if cfgs.countP (fun q => q.display) ≤ 2 then 1 else 2)) ∧
        g.srcX = (c.bufW - g.srcW) / 2 ∧
        g.srcY = (c.bufH - g.srcH) / 2 ∧
        (c.bufW - g.srcW) - 2 * g.srcX ≤ 1 ∧
        (c.bufH - g.srcH) - 2 * g.srcY ≤ 1 ∧
        g.dstW = g.srcW ∧ g.dstH = g.srcH ∧
        ((cfgs.take i).countP (fun q => q.display) % 2 = 0 → g.dstX = 0) ∧
        ((cfgs.take i).countP (fun q => q.display) % 2 ≠ 0 →
          g.dstX + g.dstW = hd) ∧
        ((cfgs.take i).countP (fun q => q.display) / 2 = 0 → g.dstY = 0) ∧
        ((cfgs.take i).countP (fun q => q.display) / 2 ≠ 0 →
          g.dstY + g.dstH = vd) := by
  intro hd vd cfgs i c hc hcd
  have hget := assignGeoms_get? hd vd (cfgs.countP (fun q => q.display)) cfgs 0 i
  rw [hc] at hget
  simp only [hcd, if_true, Option.map_some', Nat.zero_add] at hget
  have hnp := countP_take_lt cfgs i c hc hcd
  refine ⟨planeGeom hd vd (cfgs.countP (fun q => q.display)) c.bufW c.bufH
    ((cfgs.take i).countP (fun q => q.display)),
    ?_, rfl, ?_, ?_, ?_, ?_, ?_, ?_, ?_, ?_, ?_, ?_, ?_, ?_⟩
  · simpa [init_kms_geoms] using hget
  · simp [planeGeom]
  · simp [planeGeom]
  · simp [planeGeom]
  · simp [planeGeom]
  · simp only [planeGeom]
    omega
  · simp only [planeGeom]
    omega
  · simp [planeGeom]
  · simp [planeGeom]
  · intro hk
    simp [planeGeom, hk]
  · intro hk
    have hnp2 : ¬ (cfgs.countP (fun q => q.display) = 1) := by omega
    simp only [planeGeom, if_neg hnp2, if_neg hk]
    omega
  · intro hk
    simp [planeGeom, hk]
  · intro hk
    have hnp2 : ¬ (cfgs.countP (fun q => q.display) ≤ 2) := by omega
    simp only [planeGeom, if_neg hnp2, if_neg hk]
    omega

theorem C9_plane_geometry_witness :
    (init_kms_geoms 1920 1080 cfgsW9)[2]?
      = some (some (planeGeom 1920 1080 2 1920 1080 1)) ∧
    (planeGeom 1920 1080 2 1920 1080 1).dstX
      + (planeGeom 1920 1080 2 1920 1080 1).dstW = 1920 := by
  rcases C9_plane_geometry 1920 1080 cfgsW9 2 ⟨1920, 1080, true⟩
      (by decide) rfl with
    ⟨g, h1, h2, -, -, -, -, -, -, -, -, -, hdx, -, -⟩
  constructor
  · exact h2 ▸ h1
  · have hsum := hdx (by decide)
    rw [h2] at hsum
    exact hsum

lemma scanG_cons_give_self (i fb : Nat) (l : List Ev) (a : Bool) :
    scanG i fb (Ev.give i fb :: l) a
      = if a then none else scanG i fb l true := by
  simp [scanG]

lemma scanG_cons_commit (i fb : Nat) (us : List (Nat × Nat)) (l : List Ev)
    (a : Bool) :
    scanG i fb (Ev.flipCommit us :: l) a
      = scanG i fb l (if (i, fb) ∈ us then false else a) := by
  simp [scanG]

lemma scanG_cons_skip (i fb : Nat) (e : Ev) (l : List Ev) (a : Bool)
    (h1 : e ≠ Ev.give i fb) (h2 : ∀ us, e = Ev.flipCommit us → (i, fb) ∉ us) :
    scanG i fb (e :: l) a = scanG i fb l a := by
  cases e <;> simp [scanG]
  · rename_i j g
    intro hj hg
    exact absurd (by rw [hj, hg]) h1
  · rename_i us
    simp [h2 us rfl]

lemma scanG_append (i fb : Nat) (l1 l2 : List Ev) (a : Bool) :
    scanG i fb (l1 ++ l2) a = (scanG i fb l1 a).bind (scanG i fb l2) := by
  induction l1 generalizing a with
  | nil => simp [scanG]
  | cons e t ih =>
    cases e <;> simp only [List.cons_append, scanG]
    case give j g =>
      by_cases hj : j = i ∧ g = fb
      · rw [if_pos hj, if_pos hj]
        cases a
        · exact ih true
        · simp
      · rw [if_neg hj, if_neg hj]
        exact ih a
    case flipCommit us => exact ih _
    all_goals exact ih a

lemma scanG_no_touch (i fb : Nat) (l : List Ev) (a : Bool)
    (h1 : Ev.give i fb ∉ l)
    (h2 : ∀ us, Ev.flipCommit us ∈ l → (i, fb) ∉ us) :
    scanG i fb l a = some a := by
  induction l with
  | nil => rfl
  | cons e t ih =>
    rw [scanG_cons_skip i fb e t a
      (fun he => h1 (he ▸ List.mem_cons_self e t))
      (fun us he => h2 us (he ▸ List.mem_cons_self e t))]
    exact ih (fun hm => h1 (List.mem_cons_of_mem e hm))
      (fun us hm => h2 us (List.mem_cons_of_mem e hm))

lemma scanG_armed_stays (i fb : Nat) (l : List Ev) (b : Bool)
    (h2 : ∀ us, Ev.flipCommit us ∈ l → (i, fb) ∉ us)
    (h : scanG i fb l true = some b) : b = true := by
  induction l with
  | nil => cases h; rfl
  | cons e t ih =>
    rcases he : e with _ | _ | _ | ⟨j, g⟩ | _ | _ | _ | us | _ | _ <;>
      rw [he] at h
    case give =>
      by_cases hj : j = i ∧ g = fb
      · rcases hj with ⟨rfl, rfl⟩
        rw [scanG_cons_give_self] at h
        simp at h
      · rw [scanG_cons_skip i fb _ t true
          (by intro hx; injection hx with hx1 hx2; exact hj ⟨hx1, hx2⟩)
          (by intro us hx; cases hx)] at h
        exact ih (fun us hm => h2 us (he ▸ List.mem_cons_of_mem _ hm)) h
    case flipCommit =>
      rw [scanG_cons_commit] at h
      have hni : (i, fb) ∉ us := h2 us (he ▸ List.mem_cons_self _ _)
      rw [if_neg hni] at h
      exact ih (fun us' hm => h2 us' (he ▸ List.mem_cons_of_mem _ hm)) h
    all_goals
      rw [scanG_cons_skip i fb _ t true (by simp) (by intro us hx; cases hx)] at h
      exact ih (fun us' hm => h2 us' (he ▸ List.mem_cons_of_mem _ hm)) h

lemma pool_facts {s : Stream} (hnd : (pool s).Nodup) :
    (∀ fb, s.kms_old_fb = some fb → s.fbQueue.head? ≠ some fb) ∧
    s.kms_old_fb ≠ some s.kms_fb ∧
    (∀ fb, s.fbQueue.head? = some fb → fb ≠ s.kms_fb) := by
  unfold pool at hnd
  rw [List.append_assoc] at hnd
  rcases List.nodup_append.mp hnd with ⟨-, hnd2, -⟩
  rcases List.nodup_append.mp hnd2 with ⟨-, hnd3, hdisj⟩
  refine ⟨?_, ?_, ?_⟩
  · intro fb ho hh
    rcases hq : s.fbQueue with _ | ⟨f, t⟩
    · rw [hq] at hh
      simp at hh
    · rw [hq] at hh
      simp at hh
      have hm1 : fb ∈ s.fbQueue := by
        rw [hq, hh]
        exact List.mem_cons_self _ _
      have hm2 : fb ∈ s.kms_fb :: s.kms_old_fb.toList := by
        rw [ho]
        simp
      exact hdisj hm1 hm2
  · intro ho
    rw [ho] at hnd3
    simp at hnd3
  · intro fb hh heq
    rcases hq : s.fbQueue with _ | ⟨f, t⟩
    · rw [hq] at hh
      simp at hh
    · rw [hq] at hh
      simp at hh
      have hm1 : fb ∈ s.fbQueue := by
        rw [hq, hh]
        exact List.mem_cons_self _ _
      have hm2 : fb ∈ s.kms_fb :: s.kms_old_fb.toList := by
        rw [heq]
        exact List.mem_cons_self _ _
      exact hdisj hm1 hm2

lemma pageflipLoop_no_commit (k : Nat) (l : List Stream)
    (us : List (Nat × Nat)) :
    Ev.flipCommit us ∉ (pageflipLoop k l).2.1 := by
  intro hmem
  rcases pageflipLoop_gives_shape l k _ hmem with ⟨j, fb, heq, -⟩
  simp at heq

lemma hp_give_mem_iff {ctx : Ctx} {i : Nat} {s : Stream}
    (hs : ctx.streams.get? i = some s) (fb : Nat) :
    Ev.give i fb ∈ (pageflipLoop 0 ctx.streams).2.1
      ↔ (s.display = true ∧ s.kms_old_fb = some fb) := by
  rw [pageflipLoop_give_mem]
  constructor
  · rintro ⟨t, ht, -, htd, hto⟩
    rw [Nat.sub_zero, hs] at ht
    cases ht
    exact ⟨htd, hto⟩
  · rintro ⟨hd, ho⟩
    exact ⟨s, by simpa using hs, Nat.zero_le _, hd, ho⟩

lemma hp_update_mem_iff {ctx : Ctx} {i : Nat} {s : Stream}
    (hs : ctx.streams.get? i = some s) (fb : Nat) :
    (i, fb) ∈ (pageflipLoop 0 ctx.streams).2.2
      ↔ (s.display = true ∧ s.fbQueue.head? = some fb) := by
  rw [pageflipLoop_update_mem]
  constructor
  · rintro ⟨t, ht, -, htd, hth⟩
    rw [Nat.sub_zero, hs] at ht
    cases ht
    exact ⟨htd, hth⟩
  · rintro ⟨hd, hh⟩
    exact ⟨s, by simpa using hs, Nat.zero_le _, hd, hh⟩

lemma scanG_loop_gives_mem (i fb k : Nat) (l : List Stream) (a : Bool)
    (hmem : Ev.give i fb ∈ (pageflipLoop k l).2.1) :
    scanG i fb (pageflipLoop k l).2.1 a = if a then none else some true := by
  induction l generalizing k a with
  | nil => simp [pageflipLoop] at hmem
  | cons s rest ih =>
    simp only [pageflipLoop] at hmem ⊢
    rw [scanG_append]
    rcases List.mem_append.mp hmem with hh | ht
    · rcases List.mem_map.mp hh with ⟨g0, hg0, heq⟩
      injection heq with h1 h2
      subst h1
      subst h2
      have hsingle : (pageflipStream s).2.1 = [g0] := by
        rw [pageflipStream_gives] at hg0 ⊢
        by_cases hdisp : s.display = true
        · rw [if_pos hdisp] at hg0 ⊢
          simp at hg0
          rw [hg0]
          rfl
        · rw [if_neg hdisp] at hg0
          simp at hg0
      have hnot : Ev.give k g0 ∉ (pageflipLoop (k + 1) rest).2.1 := by
        intro hx
        rcases (pageflipLoop_give_mem rest (k + 1) k g0).mp hx with ⟨-, -, hk, -⟩
        omega
      have hnoc : ∀ us, Ev.flipCommit us ∈ (pageflipLoop (k + 1) rest).2.1 →
          (k, g0) ∉ us :=
        fun us hm => absurd hm (pageflipLoop_no_commit _ _ us)
      rw [hsingle]
      have hstep : ([g0].map (Ev.give k)) = [Ev.give k g0] := rfl
      rw [hstep, scanG_cons_give_self]
      cases a
      · simp only [Bool.false_eq_true, if_false]
        have hemp : scanG k g0 ([] : List Ev) true = some true := rfl
        rw [hemp, Option.some_bind]
        exact scanG_no_touch k g0 _ true hnot hnoc
      · simp
    · have hbound : k + 1 ≤ i := by
        rcases (pageflipLoop_give_mem rest (k + 1) i fb).mp ht with ⟨-, -, hk, -⟩
        exact hk
      have hhead : Ev.give i fb ∉ (pageflipStream s).2.1.map (Ev.give k) := by
        intro hx
        rcases List.mem_map.mp hx with ⟨g0, -, heq⟩
        injection heq with h1 h2
        omega
      have hnoc : ∀ us, Ev.flipCommit us ∈ (pageflipStream s).2.1.map (Ev.give k) →
          (i, fb) ∉ us := by
        intro us hm
        rcases List.mem_map.mp hm with ⟨g0, -, heq⟩
        simp at heq
      rw [scanG_no_touch i fb _ a hhead hnoc, Option.some_bind]
      exact ih (k + 1) a ht

lemma scanG_hp_old {ctx : Ctx} {i : Nat} {s : Stream} {fb : Nat} (a : Bool)
    (hs : ctx.streams.get? i = some s) (hd : s.display = true)
    (hnd : (pool s).Nodup) (ho : s.kms_old_fb = some fb) :
    scanG i fb (handle_pageflip ctx).2 a = if a then none else some true := by
  rw [handle_pageflip_evs, scanG_append]
  have hgmem : Ev.give i fb ∈ (pageflipLoop 0 ctx.streams).2.1 :=
    (hp_give_mem_iff hs fb).mpr ⟨hd, ho⟩
  rw [scanG_loop_gives_mem i fb 0 ctx.streams a hgmem]
  cases a
  · simp only [Bool.false_eq_true, if_false, Option.some_bind]
    have hnotin : (i, fb) ∉ (pageflipLoop 0 ctx.streams).2.2 := by
      intro hx
      rcases (hp_update_mem_iff hs fb).mp hx with ⟨-, hh⟩
      exact (pool_facts hnd).1 fb ho hh
    split
    · rfl
    · rw [scanG_cons_commit, if_neg hnotin]
      rfl
  · simp

lemma scanG_hp_popped {ctx : Ctx} {i : Nat} {s : Stream} {fb : Nat} (a : Bool)
    (hs : ctx.streams.get? i = some s) (hd : s.display = true)
    (hnd : (pool s).Nodup) (hh : s.fbQueue.head? = some fb) :
    scanG i fb (handle_pageflip ctx).2 a = some false := by
  rw [handle_pageflip_evs, scanG_append]
  have hnotg : Ev.give i fb ∉ (pageflipLoop 0 ctx.streams).2.1 := by
    intro hx
    rcases (hp_give_mem_iff hs fb).mp hx with ⟨-, ho⟩
    exact (pool_facts hnd).1 fb ho hh
  rw [scanG_no_touch i fb _ a hnotg
    (fun us hm => absurd hm (pageflipLoop_no_commit _ _ us)), Option.some_bind]
  have hin : (i, fb) ∈ (pageflipLoop 0 ctx.streams).2.2 :=
    (hp_update_mem_iff hs fb).mpr ⟨hd, hh⟩
  have hne : ¬ ((pageflipLoop 0 ctx.streams).2.2.isEmpty = true) := by
    intro hx
    rw [List.isEmpty_iff] at hx
    rw [hx] at hin
    cases hin
  rw [if_neg hne, scanG_cons_commit, if_pos hin]
  rfl

lemma scanG_hp_other {ctx : Ctx} {i : Nat} {s : Stream} {fb : Nat} (a : Bool)
    (hs : ctx.streams.get? i = some s)
    (ho : ¬ (s.kms_old_fb = some fb)) (hh : ¬ (s.fbQueue.head? = some fb)) :
    scanG i fb (handle_pageflip ctx).2 a = some a := by
  rw [handle_pageflip_evs, scanG_append]
  have hnotg : Ev.give i fb ∉ (pageflipLoop 0 ctx.streams).2.1 := by
    intro hx
    exact ho ((hp_give_mem_iff hs fb).mp hx).2
  rw [scanG_no_touch i fb _ a hnotg
    (fun us hm => absurd hm (pageflipLoop_no_commit _ _ us)), Option.some_bind]
  have hnotin : (i, fb) ∉ (pageflipLoop 0 ctx.streams).2.2 := by
    intro hx
    exact hh ((hp_update_mem_iff hs fb).mp hx).2
  split
  · rfl
  · rw [scanG_cons_commit, if_neg hnotin]
    rfl

lemma appendStream_pool_perm (s : Stream) (vbuf : Nat) (rest : List Nat)
    (hc : s.capQueue = vbuf :: rest) :
    (pool (appendStream s vbuf rest)).Perm (pool s) := by
  have h1 : (rest ++ (s.fbQueue ++ [vbuf])).Perm ((vbuf :: rest) ++ s.fbQueue) := by
    have h2 : (rest ++ (s.fbQueue ++ [vbuf])).Perm (rest ++ ([vbuf] ++ s.fbQueue)) :=
      List.Perm.append_left rest (List.perm_append_comm)
    refine h2.trans ?_
    rw [← List.append_assoc]
    exact List.Perm.append_right _ (List.perm_append_comm)
  show ((rest ++ (s.fbQueue ++ [vbuf])) ++ s.kms_fb :: s.kms_old_fb.toList).Perm
    ((s.capQueue ++ s.fbQueue) ++ s.kms_fb :: s.kms_old_fb.toList)
  rw [hc]
  exact List.Perm.append_right _ h1

lemma poolNodup_hp {ctx : Ctx} (h : PoolNodup ctx) :
    PoolNodup (handle_pageflip ctx).1 := by
  intro t ht htd
  rw [handle_pageflip_streams] at ht
  rcases List.mem_map.mp ht with ⟨s, hsmem, rfl⟩
  have hd : s.display = true := by
    rw [← pageflipStream_display]
    exact htd
  exact ((pageflipStream_pool_perm s hd).nodup_iff).mpr (h s hsmem hd)

lemma poolNodup_set {ctx : Ctx} {i : Nat} {t : Stream}
    (h : PoolNodup ctx) (ht : t.display = true → (pool t).Nodup) :
    PoolNodup { ctx with streams := ctx.streams.set i t } := by
  intro u hu hud
  rcases List.mem_or_eq_of_mem_set hu with hu' | rfl
  · exact h u hu' hud
  · exact ht hud

lemma poolNodup_readvid {ctx : Ctx} {i : Nat} {pp : Ctx × List Ev}
    (h : PoolNodup ctx) (hr : readvid ctx i = some pp) : PoolNodup pp.1 := by
  rcases readvid_some_inv hr with ⟨s, vbuf, rest, hs, hc⟩
  have hsmem : s ∈ ctx.streams := List.get?_mem hs
  cases hd : s.display
  · rw [readvid_nondisp hs hc hd] at hr
    cases hr
    refine poolNodup_set h ?_
    intro hcontra
    rw [show (rotateStream s vbuf rest).display = s.display from rfl, hd] at hcontra
    cases hcontra
  · have happ : (appendStream s vbuf rest).display = true →
        (pool (appendStream s vbuf rest)).Nodup := by
      intro _
      exact ((appendStream_pool_perm s vbuf rest hc).nodup_iff).mpr (h s hsmem hd)
    cases hb : ctx.kms_committed
    · rw [readvid_disp_idle hs hc hd hb] at hr
      cases hr
      exact poolNodup_hp (poolNodup_set h happ)
    · rw [readvid_disp_busy hs hc hd hb] at hr
      cases hr
      exact poolNodup_set h happ

lemma reach_poolNodup {cfg : Cfg} {ctx : Ctx} {tr : List Ev}
    (h : Reach cfg ctx tr) : PoolNodup ctx := by
  induction h with
  | init =>
    intro t ht htd
    simp only [setup] at ht
    rcases List.mem_map.mp ht with ⟨⟨d, n⟩, -, rfl⟩
    by_cases hdisp : (cfg.use_display && d) = true
    · unfold pool initStream
      rw [hdisp]
      simp only [if_true]
      simp only [List.append_nil, Option.toList_none]
      rw [List.nodup_append]
      refine ⟨List.nodup_range' _ _, by simp, ?_⟩
      intro x hx hx0
      simp at hx0
      subst hx0
      simp [List.mem_range'] at hx
      omega
    · have hdisp' : (cfg.use_display && d) = false := by
        revert hdisp
        cases cfg.use_display && d <;> simp
      simp [initStream, hdisp'] at htd
  | step hr hstep ih =>
    cases hstep with
    | capReady i p hrv => exact poolNodup_readvid ih hrv
    | drmReady hb => exact poolNodup_hp ih

lemma no_give_save (ctx : Ctx) (i vbuf j fb : Nat) :
    Ev.give j fb ∉ saveEvs ctx i vbuf := by
  unfold saveEvs
  split <;> simp

lemma no_give_tx (ctx : Ctx) (i vbuf j fb : Nat) :
    Ev.give j fb ∉ txEvs ctx i vbuf := by
  unfold txEvs
  split <;> simp

lemma no_give_warn (i : Nat) (s' : Stream) (j fb : Nat) :
    Ev.give j fb ∉ warnEvs i s' := by
  unfold warnEvs
  split <;> simp

lemma no_commit_save (ctx : Ctx) (i vbuf : Nat) (us : List (Nat × Nat)) :
    Ev.flipCommit us ∉ saveEvs ctx i vbuf := by
  unfold saveEvs
  split <;> simp

lemma no_commit_tx (ctx : Ctx) (i vbuf : Nat) (us : List (Nat × Nat)) :
    Ev.flipCommit us ∉ txEvs ctx i vbuf := by
  unfold txEvs
  split <;> simp

lemma no_commit_warn (i : Nat) (s' : Stream) (us : List (Nat × Nat)) :
    Ev.flipCommit us ∉ warnEvs i s' := by
  unfold warnEvs
  split <;> simp

/-- Appending events that contain no give and no commit preserves the
scanner invariant. -/
lemma scanInv_extend {ctx : Ctx} {tr evs : List Ev} (hsi : ScanInv ctx tr)
    (hg : ∀ i fb, Ev.give i fb ∉ evs)
    (hcm : ∀ us, Ev.flipCommit us ∉ evs) :
    ScanInv ctx (tr ++ evs) := by
  intro i s hs hd
  rcases hsi i s hs hd with ⟨hA, hB, hC⟩
  have hskip : ∀ fb a, scanG i fb evs a = some a := fun fb a =>
    scanG_no_touch i fb evs a (hg i fb) (fun us hm => absurd hm (hcm us))
  refine ⟨?_, ?_, ?_⟩
  · intro fb
    rw [scanG_append]
    rcases ha : scanG i fb tr false with _ | a0
    · exact absurd ha (hA fb)
    · simp [hskip]
  · intro fb ho
    rw [scanG_append, hB fb ho, Option.some_bind, hskip]
  · rw [scanG_append, hC, Option.some_bind, hskip]

/-- Replacing stream `i0` by a stream with the same display flag,
on-screen buffer and retiring buffer preserves the scanner invariant. -/
lemma scanInv_set_same {ctx : Ctx} {tr : List Ev} {i0 : Nat} {s0 t : Stream}
    (hs0 : ctx.streams.get? i0 = some s0)
    (hdisp : t.display = s0.display) (hkms : t.kms_fb = s0.kms_fb)
    (hold : t.kms_old_fb = s0.kms_old_fb) (hsi : ScanInv ctx tr) :
    ScanInv { ctx with streams := ctx.streams.set i0 t } tr := by
  intro i s hs hd
  have hs' : (ctx.streams.set i0 t).get? i = some s := hs
  by_cases hi : i = i0
  · subst hi
    have hlen : i < ctx.streams.length := (List.get?_eq_some.mp hs0).1
    rw [get?_set_self _ _ _ hlen] at hs'
    injection hs' with he
    subst he
    rcases hsi i s0 hs0 (hdisp ▸ hd) with ⟨hA, hB, hC⟩
    refine ⟨hA, ?_, ?_⟩
    · intro fb ho
      exact hB fb (hold ▸ ho)
    · rw [hkms]
      exact hC
  · rw [get?_set_other _ _ _ _ hi] at hs'
    exact hsi i s hs' hd

/-- A displayed stream whose pending queue gains a buffer keeps the
scanner invariant: display, on-screen and retiring buffers are
untouched. -/
lemma scanInv_hp {ctx : Ctx} {tr : List Ev} (hnd : PoolNodup ctx)
    (hsi : ScanInv ctx tr) :
    ScanInv (handle_pageflip ctx).1 (tr ++ (handle_pageflip ctx).2) := by
  intro i s' hs' hd'
  rw [handle_pageflip_streams, List.get?_map] at hs'
  rcases hstream : ctx.streams.get? i with _ | s
  · rw [hstream] at hs'
    cases hs'
  · rw [hstream] at hs'
    injection hs' with he
    subst he
    have hd : s.display = true := by
      rw [← pageflipStream_display s]
      exact hd'
    have hnds : (pool s).Nodup := hnd s (List.get?_mem hstream) hd
    rcases hsi i s hstream hd with ⟨hA, hB, hC⟩
    refine ⟨?_, ?_, ?_⟩
    · intro fb
      rw [scanG_append]
      rcases ha : scanG i fb tr false with _ | a0
      · exact absurd ha (hA fb)
      · simp only [Option.some_bind]
        by_cases ho : s.kms_old_fb = some fb
        · have hfalse := hB fb ho
          rw [ha] at hfalse
          injection hfalse with ha0
          subst ha0
          rw [scanG_hp_old false hstream hd hnds ho]
          simp
        · by_cases hh : s.fbQueue.head? = some fb
          · rw [scanG_hp_popped a0 hstream hd hnds hh]
            simp
          · rw [scanG_hp_other a0 hstream ho hh]
            simp
    · intro fb ho'
      rcases hq : s.fbQueue with _ | ⟨f, qrest⟩
      · rcases pageflipStream_empty s hd hq with ⟨-, h2, -, -⟩
        rw [h2] at ho'
        cases ho'
      · rcases pageflipStream_pop s hd f qrest hq with ⟨-, h2, -, -⟩
        rw [h2] at ho'
        injection ho' with hfb
        subst hfb
        rw [scanG_append, hC, Option.some_bind]
        have hhne : ¬ (s.fbQueue.head? = some s.kms_fb) := by
          intro hx
          rw [hq] at hx
          simp at hx
          exact (pool_facts hnds).2.2 f (by rw [hq]; rfl) hx
        rw [scanG_hp_other false hstream (pool_facts hnds).2.1 hhne]
    · rcases hq : s.fbQueue with _ | ⟨f, qrest⟩
      · rcases pageflipStream_empty s hd hq with ⟨h1, -, -, -⟩
        rw [h1, scanG_append, hC, Option.some_bind]
        rw [scanG_hp_other false hstream (pool_facts hnds).2.1 (by rw [hq]; simp)]
      · rcases pageflipStream_pop s hd f qrest hq with ⟨h1, -, -, -⟩
        rw [h1, scanG_append]
        rcases ha : scanG i f tr false with _ | a0
        · exact absurd ha (hA f)
        · simp only [Option.some_bind]
          rw [scanG_hp_popped a0 hstream hd hnds (by rw [hq]; rfl)]

lemma scanInv_readvid {ctx : Ctx} {tr : List Ev} {i0 : Nat}
    {pp : Ctx × List Ev} (hnd : PoolNodup ctx) (hsi : ScanInv ctx tr)
    (hr : readvid ctx i0 = some pp) : ScanInv pp.1 (tr ++ pp.2) := by
  rcases readvid_some_inv hr with ⟨s0, vbuf, rest, hs0, hc⟩
  cases hd0 : s0.display
  · rw [readvid_nondisp hs0 hc hd0] at hr
    cases hr
    intro i s hs hd
    have hs' : (ctx.streams.set i0 (rotateStream s0 vbuf rest)).get? i = some s := hs
    by_cases hi : i = i0
    · subst hi
      have hlen : i < ctx.streams.length := (List.get?_eq_some.mp hs0).1
      rw [get?_set_self _ _ _ hlen] at hs'
      injection hs' with he
      subst he
      rw [show (rotateStream s0 vbuf rest).display = s0.display from rfl, hd0] at hd
      cases hd
    · rw [get?_set_other _ _ _ _ hi] at hs'
      rcases hsi i s hs' hd with ⟨hA, hB, hC⟩
      have hskip : ∀ fb a, scanG i fb (saveEvs ctx i0 vbuf ++ txEvs ctx i0 vbuf
          ++ [Ev.give i0 vbuf]) a = some a := by
        intro fb a
        apply scanG_no_touch
        · intro hm
          simp only [List.mem_append, List.mem_singleton] at hm
          rcases hm with (hm | hm) | hm
          · exact no_give_save ctx i0 vbuf i fb hm
          · exact no_give_tx ctx i0 vbuf i fb hm
          · injection hm with h1 h2
            exact hi h1
        · intro us hm
          simp only [List.mem_append, List.mem_singleton] at hm
          rcases hm with (hm | hm) | hm
          · exact absurd hm (no_commit_save ctx i0 vbuf us)
          · exact absurd hm (no_commit_tx ctx i0 vbuf us)
          · exact absurd hm (by simp)
      refine ⟨?_, ?_, ?_⟩
      · intro fb
        rw [scanG_append]
        rcases ha : scanG i fb tr false with _ | a0
        · exact absurd ha (hA fb)
        · simp only [Option.some_bind]
          rw [hskip]
          simp
      · intro fb ho
        rw [scanG_append, hB fb ho, Option.some_bind, hskip]
      · rw [scanG_append, hC, Option.some_bind, hskip]
  · have happ : (pool (appendStream s0 vbuf rest)).Nodup :=
      ((appendStream_pool_perm s0 vbuf rest hc).nodup_iff).mpr
        (hnd s0 (List.get?_mem hs0) hd0)
    have hgw : ∀ i fb, Ev.give i fb ∉ (saveEvs ctx i0 vbuf
        ++ warnEvs i0 (appendStream s0 vbuf rest)) := by
      intro i fb hm
      rcases List.mem_append.mp hm with hm | hm
      · exact no_give_save ctx i0 vbuf i fb hm
      · exact no_give_warn i0 _ i fb hm
    have hcw : ∀ us, Ev.flipCommit us ∉ (saveEvs ctx i0 vbuf
        ++ warnEvs i0 (appendStream s0 vbuf rest)) := by
      intro us hm
      rcases List.mem_append.mp hm with hm | hm
      · exact no_commit_save ctx i0 vbuf us hm
      · exact no_commit_warn i0 _ us hm
    cases hb : ctx.kms_committed
    · rw [readvid_disp_idle hs0 hc hd0 hb] at hr
      cases hr
      have h1 : PoolNodup { ctx with
          streams := ctx.streams.set i0 (appendStream s0 vbuf rest) } :=
        poolNodup_set hnd (fun _ => happ)
      have h2 : ScanInv { ctx with
          streams := ctx.streams.set i0 (appendStream s0 vbuf rest) }
          (tr ++ (saveEvs ctx i0 vbuf ++ warnEvs i0 (appendStream s0 vbuf rest))) :=
        scanInv_extend (scanInv_set_same hs0 rfl rfl rfl hsi) hgw hcw
      have h3 := scanInv_hp h1 h2
      rw [List.append_assoc] at h3
      exact h3
    · rw [readvid_disp_busy hs0 hc hd0 hb] at hr
      cases hr
      exact scanInv_extend (scanInv_set_same hs0 rfl rfl rfl hsi) hgw hcw

lemma reach_scanInv {cfg : Cfg} {ctx : Ctx} {tr : List Ev}
    (h : Reach cfg ctx tr) : ScanInv ctx tr := by
  induction h with
  | init =>
    intro i s hs hd
    have hskip : ∀ fb a, scanG i fb (setup cfg).2 a = some a := by
      intro fb a
      apply scanG_no_touch
      · intro hm
        simp only [setup, List.mem_append] at hm
        rcases hm with hm | hm
        · revert hm
          split <;> simp
        · rcases List.mem_map.mp hm with ⟨j, -, heq⟩
          cases heq
      · intro us hm
        simp only [setup, List.mem_append] at hm
        rcases hm with hm | hm
        · revert hm
          split <;> simp
        · rcases List.mem_map.mp hm with ⟨j, -, heq⟩
          cases heq
    exact ⟨fun fb => by rw [hskip]; simp, fun fb _ => hskip fb false,
      hskip _ false⟩
  | @step ctx1 tr1 evs1 ctx2 hr hstep ih =>
    cases hstep with
    | capReady i p hrv => exact scanInv_readvid (reach_poolNodup hr) ih hrv
    | drmReady hb =>
      have h2 : ScanInv ctx1 (tr1 ++ [Ev.flipComplete]) :=
        scanInv_extend ih (by simp) (by simp)
      have h3 := scanInv_hp (fun s hsm hsd => (reach_poolNodup hr) s hsm hsd) h2
      simp only [readdrm]
      rw [List.append_assoc] at h3
      simpa using h3

lemma pageflipLoop_give_count (i fb k : Nat) (l : List Stream) :
    (pageflipLoop k l).2.1.countP (fun e => decide (e = Ev.give i fb)) ≤ 1 := by
  induction l generalizing k with
  | nil => simp [pageflipLoop]
  | cons s rest ih =>
    simp only [pageflipLoop, List.countP_append]
    by_cases hmem : Ev.give i fb ∈ (pageflipLoop (k + 1) rest).2.1
    · rcases (pageflipLoop_give_mem rest (k + 1) i fb).mp hmem with ⟨-, -, hk, -⟩
      have hhead : ((pageflipStream s).2.1.map (Ev.give k)).countP
          (fun e => decide (e = Ev.give i fb)) = 0 := by
        apply List.countP_eq_zero.mpr
        intro e he
        rcases List.mem_map.mp he with ⟨g0, -, rfl⟩
        simp only [decide_eq_true_eq]
        intro hx
        injection hx with h1 h2
        omega
      rw [hhead]
      have hih := ih (k + 1)
      omega
    · have htail : (pageflipLoop (k + 1) rest).2.1.countP
          (fun e => decide (e = Ev.give i fb)) = 0 := by
        apply List.countP_eq_zero.mpr
        intro e he hp
        simp only [decide_eq_true_eq] at hp
        exact hmem (hp ▸ he)
      have hlen : (pageflipStream s).2.1.length ≤ 1 := by
        rw [pageflipStream_gives]
        split
        · rcases s.kms_old_fb <;> simp
        · simp
      have hhead : ((pageflipStream s).2.1.map (Ev.give k)).countP
          (fun e => decide (e = Ev.give i fb)) ≤ 1 := by
        refine le_trans (List.countP_le_length _) ?_
        rw [List.length_map]
        exact hlen
      omega

lemma hp_give_count (c : Ctx) (i fb : Nat) :
    (handle_pageflip c).2.countP (fun e => decide (e = Ev.give i fb)) ≤ 1 := by
  rw [handle_pageflip_evs, List.countP_append]
  have h2 : (if (pageflipLoop 0 c.streams).2.2.isEmpty then []
      else [Ev.flipCommit (pageflipLoop 0 c.streams).2.2]).countP
      (fun e => decide (e = Ev.give i fb)) = 0 := by
    split <;> simp
  have h1 := pageflipLoop_give_count i fb 0 c.streams
  omega

/-- C10: No double retirement: in every reachable execution, a displayed
stream's buffer is never given back to the capture queue twice without a
flip commit re-displaying it in between; moreover one `handle_pageflip`
call gives each buffer of a stream back at most once, the per-stream body
requeues exactly the retiring buffer and clears the field, and the field
is set again only when a new buffer is popped from the pending-commit
queue (to the previously on-screen buffer). -/
theorem C10_no_double_retire :
    ∀ (cfg : Cfg) (ctx : Ctx) (tr : List Ev), Reach cfg ctx tr →
      ∀ i s, ctx.streams.get? i = some s → s.display = true →
      (∀ fb t1 t2 t3,
        tr = t1 ++ Ev.give i fb :: (t2 ++ Ev.give i fb :: t3) →
        ∃ us, Ev.flipCommit us ∈ t2 ∧ (i, fb) ∈ us) ∧
      (∀ (c : Ctx) (fb : Nat),
        (handle_pageflip c).2.countP (fun e => decide (e = Ev.give i fb)) ≤ 1) ∧
      (∀ t : Stream, t.display = true →
        (pageflipStream t).2.1 = t.kms_old_fb.toList ∧
        (pageflipStream t).1.kms_old_fb
          = (match t.fbQueue with
             | [] => none
             | _ :: _ => some t.kms_fb)) := by
  intro cfg ctx tr h i s hs hd
  refine ⟨?_, fun c fb => hp_give_count c i fb, ?_⟩
  · intro fb t1 t2 t3 heq
    rcases reach_scanInv h i s hs hd with ⟨hA, -, -⟩
    by_contra hno
    push_neg at hno
    refine hA fb ?_
    rw [heq, scanG_append]
    rcases ha1 : scanG i fb t1 false with _ | a1
    · rfl
    · simp only [Option.some_bind]
      rw [scanG_cons_give_self]
      cases a1
      · simp only [Bool.false_eq_true, if_false]
        rw [scanG_append]
        rcases ha2 : scanG i fb t2 true with _ | b
        · rfl
        · have hb : b = true :=
            scanG_armed_stays i fb t2 b (fun us hm hin => hno us hm hin) ha2
          subst hb
          simp only [Option.some_bind]
          rw [scanG_cons_give_self]
          simp
      · simp
  · intro t htd
    constructor
    · rw [pageflipStream_gives, if_pos htd]
    · rcases hq : t.fbQueue with _ | ⟨f, qrest⟩
      · exact (pageflipStream_empty t htd hq).2.1
      · exact (pageflipStream_pop t htd f qrest hq).2.1

theorem C10_no_double_retire_witness :
    ∃ us, Ev.flipCommit us ∈ [Ev.warn 0 1, Ev.flipCommit [(0, 0)],
        Ev.flipComplete, Ev.give 0 1, Ev.warn 0 1, Ev.flipCommit [(0, 1)],
        Ev.flipComplete] ∧
      ((0 : Nat), (0 : Nat)) ∈ us := by
  have h1 : Reach cfgW10 pW10a.1 ((setup cfgW10).2 ++ pW10a.2) :=
    Reach.step Reach.init (Step.capReady (setup cfgW10).1 0 pW10a (by decide))
  have h2 := Reach.step h1 (Step.drmReady pW10a.1 (by decide))
  have h3 := Reach.step h2 (Step.capReady dW10b.1 0 pW10c (by decide))
  have h4 := Reach.step h3 (Step.drmReady pW10c.1 (by decide))
  have h5 := Reach.step h4 (Step.capReady dW10d.1 0 pW10e (by decide))
  have h6 : Reach cfgW10 dW10f.1 trW10 :=
    Reach.step h5 (Step.drmReady pW10e.1 (by decide))
  exact (C10_no_double_retire cfgW10 dW10f.1 trW10 h6 0 sW10 (by decide) rfl).1
    0
    [Ev.modeset, Ev.streamOn 0, Ev.warn 0 1, Ev.flipCommit [(0, 1)],
     Ev.flipComplete]
    [Ev.warn 0 1, Ev.flipCommit [(0, 0)], Ev.flipComplete, Ev.give 0 1,
     Ev.warn 0 1, Ev.flipCommit [(0, 1)], Ev.flipComplete]
    []
    (by decide)

end Cam
